import Mathlib

/-!
Verification of the aquifer-git deployment extension (src/aquifer-git.js)
against its natural-language specification.

The single exported operation `AquiferGit.run` is embedded shallowly:

* JavaScript option values are modelled by `JVal` together with the
  JavaScript truthiness test `truthy`; the lodash `_.assign` call with the
  customizer `(lastValue, nextValue) => nextValue ? nextValue : lastValue`
  becomes `mergedOptions`.
* The fallible external capabilities (mktemp, the git process invocations,
  the site builder, `fs.copySync`) are given by an oracle `Env` fixing the
  outcome of each call; `fs.removeSync` is modelled as the best-effort,
  non-throwing recursive delete the spec describes.
* A run produces a `RunResult`: the ordered list of observable `Event`s
  (console logs, callback invocations, process invocations, filesystem
  operations), the workspace path if one was created, and whether the
  workspace directory still exists when the run terminates.
* For the deployment-files copy step, file contents are additionally
  modelled by a small filesystem `FS` over component-list paths
  (`path.join` becomes list append), with `removeTree`/`copyTree` giving
  the semantics of `fs.removeSync`/`fs.copySync` on whole trees.
-/

/-- A JavaScript value as it occurs among the options of this program:
`undefined`, a boolean, a string, an array of strings, or an array of
`{src, dest}` objects (the `deploymentFiles` entries). -/
inductive JVal where
  | undefined : JVal
  | bool : Bool → JVal
  | str : String → JVal
  | list : List String → JVal
  | pairs : List (String × String) → JVal
  deriving DecidableEq

/-- JavaScript truthiness: `undefined` and `false` and the empty string are
falsy; arrays are always truthy. -/
def truthy : JVal → Bool
  | .undefined => false
  | .bool b => b
  | .str s => !(s == "")
  | .list _ => true
  | .pairs _ => true

/-- JavaScript string coercion, as used when an option value is spliced
into a command line by string concatenation. -/
def jstr : JVal → String
  | .undefined => "undefined"
  | .bool b => if b then "true" else "false"
  | .str s => s
  | .list xs => String.intercalate "," xs
  | .pairs xs => String.intercalate "," (xs.map fun _ => "[object Object]")

/-- Reads a `deploymentFiles` value as a list of `(src, dest)` pairs; a
value of any other shape contributes no pairs. -/
def jpairsOf : JVal → List (String × String)
  | .pairs xs => xs
  | _ => []

/-- The customizer passed to lodash `_.assign` in `AquiferGit.run`
(line 91): `(lastValue, nextValue, name) => nextValue ? nextValue :
lastValue`, so a falsy source value never overrides the accumulated one. -/
def customize (lastValue nextValue : JVal) : JVal :=
  if truthy nextValue then nextValue else lastValue

/-- The literal defaults of the `options` object built at lines 78 to 83 of
the source: `deploymentFiles: []`, `excludeLinks: ['sites/default/files']`,
`addLinks: []`, `delPatterns: ['*', '!.git']`; every other key starts out
absent. -/
def gitDefaults : String → JVal := fun name =>
  if name == "deploymentFiles" then .pairs []
  else if name == "excludeLinks" then .list ["sites/default/files"]
  else if name == "addLinks" then .list []
  else if name == "delPatterns" then .list ["*", "!.git"]
  else .undefined

/-- The options after `_.assign(options, AquiferGitConfig, commandOptions,
customizer)`: the static config is folded over the defaults, then the
command-line options over that, key by key through `customize`. -/
def mergedOptions (cfg cli : String → JVal) : String → JVal := fun name =>
  customize (customize (gitDefaults name) (cfg name)) (cli name)

/-- The required options checked at lines 84 and 95 of the source. -/
def requiredOptions : List String := ["remote", "branch", "message"]

/-- Model of `path.join` on two string segments. -/
def pathJoin (a b : String) : String := a ++ "/" ++ b

/-- One git invocation issued through `run.invoke`, kept structured; the
exact command line the source builds is recovered by `renderGit`. -/
inductive GitCmd where
  | clone : String → String → GitCmd
  | checkout : String → String → GitCmd
  | checkoutNew : String → String → GitCmd
  | addAll : String → GitCmd
  | commit : String → String → Option String → GitCmd
  | push : String → String → GitCmd
  deriving DecidableEq

/-- The exact command strings `AquiferGit.run` concatenates for each git
invocation (lines 120, 125, 131, 179, 186 to 194, 200 of the source). -/
def renderGit : GitCmd → String
  | .clone r dest => "git clone " ++ r ++ " " ++ dest
  | .checkout wd b => "git -C " ++ wd ++ " checkout " ++ b
  | .checkoutNew wd b => "git -C " ++ wd ++ " checkout -b " ++ b
  | .addAll wd => "git -C " ++ wd ++ " add -A"
  | .commit wd m a =>
      "git -C " ++ wd ++ " commit -m \"" ++ m ++ "\"" ++
        (match a with
          | some s => " --author \"" ++ s ++ "\""
          | none => "")
  | .push wd b => "git -C " ++ wd ++ " push origin " ++ b

/-- An observable action of a run, in program order: a console log with its
kind, an invocation of the error callback, the `mktemp.createDir` call, a
git process invocation, a builder invocation with its target path, and the
`fs.removeSync` / `fs.copySync` filesystem calls; `removeSyncUndefined` is
the `fs.removeSync(destPath)` call of the catch handler made while
`destPath` is still undefined, which throws inside fs-extra (rimraf
asserts on a non-string path) and so terminates the handler. -/
inductive Event where
  | log : String → String → Event
  | cb : String → Event
  | mktempCall : Event
  | invoke : GitCmd → Event
  | buildCreate : String → Event
  | removeSync : String → Event
  | removeSyncUndefined : Event
  | copySync : String → String → Event
  deriving DecidableEq

/-- Tests whether an event is an invocation of the error callback. -/
def isCb : Event → Bool
  | .cb _ => true
  | _ => false

/-- The outcome of one call to `AquiferGit.run`: the emitted events, the
workspace path when `mktemp.createDir` succeeded, and whether the
workspace directory still exists at the end of the run. -/
structure RunResult where
  events : List Event
  destPath : Option String
  wsExists : Bool

/-- Oracle fixing the outcome of every fallible external call of one run:
the temp-directory creation (which yields the fresh path on success), each
git invocation, the site build, and the deployment-files copy loop, which
throws at pair index `copyFailAt` with error `copyErr` when that index is
within the list. -/
structure Env where
  mktemp : Except String String
  clone : Option String
  checkout : Option String
  checkoutB : Option String
  build : Option String
  copyFailAt : Option Nat
  copyErr : String
  addAll : Option String
  commit : Option String
  push : Option String

/-- The `options.deploymentFiles.forEach` loop of lines 162 to 167: for
each `{src, dest}` pair it removes `path.join(destPath, dest)` and copies
`path.join(projectDir, src)` over it; the loop stops with the oracle error
when the copy at index `failAt` throws. -/
def copyLoop (projectDir dp : String) :
    List (String × String) → Option Nat → String → List Event × Option String
  | [], _, _ => ([], none)
  | link :: rest, failAt, ce =>
    let src := pathJoin projectDir link.1
    let dest := pathJoin dp link.2
    match failAt with
    | some 0 => ([Event.removeSync dest], some ce)
    | some (n + 1) =>
      let r := copyLoop projectDir dp rest (some n) ce
      (Event.removeSync dest :: Event.copySync src dest :: r.1, r.2)
    | none =>
      let r := copyLoop projectDir dp rest none ce
      (Event.removeSync dest :: Event.copySync src dest :: r.1, r.2)

/-- The error with which the deployment-files loop terminates, if any. -/
def copyResult (pairs : List (String × String)) (failAt : Option Nat)
    (ce : String) : Option String :=
  match failAt with
  | some n => if n < pairs.length then some ce else none
  | none => none

/-- The catch handler of lines 217 to 222. With a created workspace it
removes `destPath` unless debug is set (best-effort) and then hands the
error, unchanged, to the callback. When the workspace was never created,
`destPath` is still undefined: with debug unset the handler calls
`fs.removeSync(undefined)`, which throws inside fs-extra before line 221
runs, so the callback is never invoked; with debug set the removal is
skipped and the callback receives the error. -/
def catchResult (debug : Bool) (evs : List Event) (dp : Option String)
    (created : Bool) (e : String) : RunResult :=
  match dp with
  | some d =>
    { events := evs ++ (if debug then [] else [Event.removeSync d])
        ++ [Event.cb e]
    , destPath := some d
    , wsExists := created && debug }
  | none =>
    { events := evs ++
        (if debug then [Event.cb e] else [Event.removeSyncUndefined])
    , destPath := none
    , wsExists := false }

/-- The tail of the promise chain from the build step on (lines 135 to
214), entered once a branch has been checked out: build, copy deployment
files, clear the index, add, commit, push, conditional cleanup, success
log; any rejection falls through to the catch handler. -/
def runRest (options : String → JVal) (projectDir d : String) (debug : Bool)
    (env : Env) (evs : List Event) : RunResult :=
  let wd := pathJoin projectDir d
  let buildPath := if truthy (options "folder") then pathJoin d (jstr (options "folder")) else d
  let evs1 := evs ++ [Event.log "Building the site..." "status", Event.buildCreate buildPath]
  match env.build with
  | some e => catchResult debug evs1 (some d) true e
  | none =>
    let cp := copyLoop projectDir d (jpairsOf (options "deploymentFiles"))
        env.copyFailAt env.copyErr
    let evs2 := evs1 ++ [Event.log "Copying deployment files..." "status"] ++ cp.1
    match cp.2 with
    | some e => catchResult debug evs2 (some d) true e
    | none =>
      let evs3 := evs2 ++ [Event.log "Clearing the index..." "status",
        Event.removeSync (pathJoin wd ".git/index")]
      let evs4 := evs3 ++ [Event.log "Adding all files to the index..." "status",
        Event.invoke (GitCmd.addAll wd)]
      match env.addAll with
      | some e => catchResult debug evs4 (some d) true e
      | none =>
        let author := if truthy (options "name")
          then some (jstr (options "name") ++ " <" ++
            (if truthy (options "email") then jstr (options "email") else "") ++ ">")
          else none
        let evs5 := evs4 ++ [Event.log "Committing changes..." "status",
          Event.invoke (GitCmd.commit wd (jstr (options "message")) author)]
        match env.commit with
        | some e => catchResult debug evs5 (some d) true e
        | none =>
          let evs6 := evs5 ++ [Event.log ("Pushing branch: " ++ jstr (options "branch") ++ "...") "status",
            Event.invoke (GitCmd.push wd (jstr (options "branch")))]
          match env.push with
          | some e => catchResult debug evs6 (some d) true e
          | none =>
            let evs7 := evs6 ++ (if debug then [] else
              [Event.log ("Removing the " ++ d ++ " directory...") "status",
               Event.removeSync d])
            { events := evs7 ++ [Event.log "The site has been successfully deployed!" "success"]
            , destPath := some d
            , wsExists := debug }

/-- The promise chain started at line 114, after validation has passed:
create the workspace, clone, check out the branch with the single
create-and-checkout fallback of lines 124 to 133, then `runRest`.  Note
that the source logs `Checking out branch: ...` only after the checkout
invocation has succeeded, and logs `Creating new branch: ...` before the
fallback invocation. -/
def pipelineRun (options : String → JVal) (projectDir : String) (env : Env) : RunResult :=
  let debug := truthy (options "debug")
  match env.mktemp with
  | .error e => catchResult debug [Event.mktempCall] none false e
  | .ok d =>
    let evs1 := [Event.mktempCall,
      Event.log ("Cloning the repository into " ++ d ++ "...") "status",
      Event.invoke (GitCmd.clone (jstr (options "remote")) d)]
    match env.clone with
    | some e => catchResult debug evs1 (some d) true e
    | none =>
      let wd := pathJoin projectDir d
      let b := jstr (options "branch")
      match env.checkout with
      | none =>
        runRest options projectDir d debug env
          (evs1 ++ [Event.invoke (GitCmd.checkout wd b),
            Event.log ("Checking out branch: " ++ b ++ "...") "status"])
      | some _ =>
        let evs2 := evs1 ++ [Event.invoke (GitCmd.checkout wd b),
          Event.log ("Creating new branch: " ++ b ++ "...") "status",
          Event.invoke (GitCmd.checkoutNew wd b)]
        match env.checkoutB with
        | some e => catchResult debug evs2 (some d) true e
        | none => runRest options projectDir d debug env evs2

/-- `AquiferGit.run` (lines 72 to 223): reject an unknown command, merge
the options, report every missing required option through the callback,
reject an email without a name, and otherwise run the pipeline. -/
def aquiferGitRun (cfg cli : String → JVal) (projectDir : String)
    (command : String) (env : Env) : RunResult :=
  if command ≠ "deploy-git" then
    { events := [Event.cb "Invalid command."], destPath := none, wsExists := false }
  else
    let options := mergedOptions cfg cli
    let missing := requiredOptions.filter (fun n => !truthy (options n))
    if missing ≠ [] then
      { events := missing.map (fun n => Event.cb ("\"" ++ n ++ "\" option is missing. Cannot deploy."))
      , destPath := none, wsExists := false }
    else if truthy (options "email") && !truthy (options "name") then
      { events := [Event.cb "Name is required for a custom commit signature if the email is provided."]
      , destPath := none, wsExists := false }
    else
      pipelineRun options projectDir env

/-- The error of the first failing step of the tail of the pipeline, with
the copy loop failing according to `copyResult`. -/
def firstErrorRest (pairs : List (String × String)) (env : Env) : Option String :=
  match env.build with
  | some e => some e
  | none =>
    match copyResult pairs env.copyFailAt env.copyErr with
    | some e => some e
    | none =>
      match env.addAll with
      | some e => some e
      | none =>
        match env.commit with
        | some e => some e
        | none => env.push

/-- The error of the first fatally failing step of the whole pipeline: a
checkout failure is fatal only when the create-and-checkout fallback also
fails, and then the fallback error is the one that surfaces. -/
def firstError (pairs : List (String × String)) (env : Env) : Option String :=
  match env.mktemp with
  | .error e => some e
  | .ok _ =>
    match env.clone with
    | some e => some e
    | none =>
      match env.checkout with
      | none => firstErrorRest pairs env
      | some _ =>
        match env.checkoutB with
        | some e => some e
        | none => firstErrorRest pairs env

/-- The callback events a run with the given terminal error produces. -/
def cbTrail : Option String → List Event
  | some e => [Event.cb e]
  | none => []

/-- The callback invocations a pipeline run actually delivers: the first
failing step's error, except that a workspace-creation failure with debug
unset reaches the callback never, because the catch handler throws while
removing the undefined workspace path. -/
def deliveredCb (debug : Bool) (pairs : List (String × String))
    (env : Env) : List Event :=
  match env.mktemp with
  | .error e => if debug then [Event.cb e] else []
  | .ok _ => cbTrail (firstError pairs env)


/-- Component-list prefix test for paths: `pre d p` holds when the path `p`
lies at or below the tree rooted at `d`. -/
def pre : List String → List String → Bool
  | [], _ => true
  | _ :: _, [] => false
  | a :: as, b :: bs => a == b && pre as bs

/-- A filesystem for the deployment-files step: paths are component lists
(`path.join` is append) and each existing file carries its contents. -/
def FS : Type := List String → Option String

/-- `fs.removeSync(d)`: recursively deletes the tree rooted at `d`. -/
def removeTree (d : List String) (fs : FS) : FS := fun p =>
  if pre d p then none else fs p

/-- `fs.copySync(s, d, {clobber: true})`: every path below `d` now holds
the contents found at the corresponding path below `s`. -/
def copyTree (s d : List String) (fs : FS) : FS := fun p =>
  if pre d p then fs (s ++ p.drop d.length) else fs p

/-- The deployment-files copy step of lines 162 to 167 as a filesystem
transformer: for each `{src, dest}` pair in order, remove
`path.join(destPath, dest)` and copy `path.join(projectDir, src)` over
it. -/
def syncFiles (projectDir destPath : List String)
    (pairs : List (List String × List String)) (fs : FS) : FS :=
  pairs.foldl
    (fun fs link =>
      copyTree (projectDir ++ link.1) (destPath ++ link.2)
        (removeTree (destPath ++ link.2) fs))
    fs

/-- Separation hypothesis for the copy step: no resolved source path and
resolved destination path of any two pairs lie in one another's trees. In
a real run this holds because destinations resolve below the freshly
created temporary workspace while sources resolve below the project
directory. -/
def sepPairs (projectDir destPath : List String)
    (pairs : List (List String × List String)) : Prop :=
  ∀ l₁ ∈ pairs, ∀ l₂ ∈ pairs,
    pre (projectDir ++ l₁.1) (destPath ++ l₂.2) = false ∧
    pre (destPath ++ l₂.2) (projectDir ++ l₁.1) = false

/-- The rewrite the copy step performs at one path: the last pair whose
destination tree contains `p` redirects `p` to the corresponding source
path. -/
def destWrite (projectDir destPath : List String) :
    List (List String × List String) → List String → Option (List String)
  | [], _ => none
  | l :: ls, p =>
    match destWrite projectDir destPath ls p with
    | some q => some q
    | none =>
      if pre (destPath ++ l.2) p then
        some (projectDir ++ l.1 ++ p.drop (destPath ++ l.2).length)
      else none

/-- An ordering relation on a trace: `x` occurs at some position strictly
before an occurrence of `y`. -/
def before (evs : List Event) (x y : Event) : Prop :=
  ∃ i j : Fin evs.length, i.val < j.val ∧ evs.get i = x ∧ evs.get j = y

instance (evs : List Event) (x y : Event) : Decidable (before evs x y) := by
  unfold before; exact inferInstance

/-- A concrete static config used to exercise the theorems below: the
three required options are present as strings, everything else is left
undefined. -/
def cfgW : String → JVal := fun name =>
  if name == "remote" then .str "repo.git"
  else if name == "branch" then .str "gh-pages"
  else if name == "message" then .str "deploy"
  else .undefined

/-- A concrete command-line option set that supplies nothing. -/
def cliW : String → JVal := fun _ => .undefined

/-- A concrete oracle for a fully successful run. -/
def envOkW : Env :=
  { mktemp := .ok "aquifer-git-abc1234", clone := none, checkout := none
  , checkoutB := none, build := none, copyFailAt := none, copyErr := ""
  , addAll := none, commit := none, push := none }

/-- A concrete oracle whose only failure is a rejected push. -/
def envPushFailW : Env := { envOkW with push := some "push rejected" }

/-- A concrete oracle whose only failure is a failing build. -/
def envBuildFailW : Env := { envOkW with build := some "build failed" }

/-- A concrete oracle in which both the checkout and the create-and-checkout
fallback fail. -/
def envCheckoutFailW : Env :=
  { envOkW with
      checkout := some "checkout failed"
      checkoutB := some "could not create branch" }

/-- A concrete oracle in which the workspace cannot be created. -/
def envMktempFailW : Env := { envOkW with mktemp := .error "mktemp failed" }

/-- A concrete starting filesystem for the copy-step counterexample: the
project tree `d/a` holds two files `f` and `g`. -/
def fsW : FS := fun p =>
  if p = ["d", "a", "f"] then some "F"
  else if p = ["d", "a", "g"] then some "G"
  else none

/-- Copy pairs whose second destination overwrites the first source, which
can happen when the destination root lies inside the source root. -/
def pairsW : List (List String × List String) :=
  [(["f"], ["b"]), (["g"], ["a", "f"])]

/-- A concrete static config with an email but no name. -/
def cfgEmailW : String → JVal := fun name =>
  if name == "remote" then .str "repo.git"
  else if name == "branch" then .str "gh-pages"
  else if name == "message" then .str "deploy"
  else if name == "email" then .str "jane@example.com"
  else .undefined

/-- A concrete static config with a full commit signature. -/
def cfgAuthorW : String → JVal := fun name =>
  if name == "remote" then .str "repo.git"
  else if name == "branch" then .str "gh-pages"
  else if name == "message" then .str "deploy"
  else if name == "name" then .str "Jane"
  else if name == "email" then .str "jane@example.com"
  else .undefined

/-- A concrete static config like `cfgW` but with the debug flag set. -/
def cfgDebugW : String → JVal := fun name =>
  if name == "remote" then .str "repo.git"
  else if name == "branch" then .str "gh-pages"
  else if name == "message" then .str "deploy"
  else if name == "debug" then .bool true
  else .undefined

/-- A concrete oracle in which the checkout fails and the
create-and-checkout fallback succeeds. -/
def envFallbackW : Env := { envOkW with checkout := some "no such branch" }

/-- Characterization of the path-tree test: `pre a b` holds exactly when
`b` extends `a`. -/
theorem pre_iff (a : List String) : ∀ b, pre a b = true ↔ ∃ t, b = a ++ t := by
  induction a with
  | nil => intro b; simp [pre]
  | cons x as ih =>
    intro b
    cases b with
    | nil => simp [pre]
    | cons y bs =>
      simp only [pre, Bool.and_eq_true, beq_iff_eq, ih, List.cons_append, List.cons.injEq]
      constructor
      · rintro ⟨rfl, t, rfl⟩; exact ⟨t, rfl, rfl⟩
      · rintro ⟨t, rfl, rfl⟩; exact ⟨rfl, t, rfl⟩

/-- A tree contains every extension of its root. -/
theorem pre_append_self (a t : List String) : pre a (a ++ t) = true :=
  (pre_iff a (a ++ t)).mpr ⟨t, rfl⟩

/-- Two decompositions of one path order its two initial segments. -/
theorem pre_of_append_eq (a : List String) :
    ∀ (b t₁ t₂ : List String), a ++ t₁ = b ++ t₂ →
      pre a b = true ∨ pre b a = true := by
  induction a with
  | nil => intro b t₁ t₂ _; left; rfl
  | cons x as ih =>
    intro b t₁ t₂ h
    cases b with
    | nil => right; rfl
    | cons y bs =>
      rw [List.cons_append, List.cons_append, List.cons.injEq] at h
      rcases ih bs t₁ t₂ h.2 with h2 | h2
      · left; simp [pre, h.1, h2]
      · right; simp [pre, h.1.symm, h2]

/-- Incomparable roots stay incomparable after extending one of them. -/
theorem pre_append_false (a b u : List String)
    (h1 : pre a b = false) (h2 : pre b a = false) : pre a (b ++ u) = false := by
  cases hp : pre a (b ++ u) with
  | false => rfl
  | true =>
    obtain ⟨t₁, ht⟩ := (pre_iff a (b ++ u)).mp hp
    rcases pre_of_append_eq a b t₁ u ht.symm with h | h
    · rw [h1] at h; exact absurd h (by simp)
    · rw [h2] at h; exact absurd h (by simp)

/-- Every rewrite `destWrite` produces points below a source tree. -/
theorem destWrite_shape (projectDir destPath : List String) :
    ∀ (ps : List (List String × List String)) (p q : List String),
      destWrite projectDir destPath ps p = some q →
      ∃ l ∈ ps, ∃ u, q = projectDir ++ l.1 ++ u := by
  intro ps
  induction ps with
  | nil => intro p q h; simp [destWrite] at h
  | cons l ls ih =>
    intro p q h
    unfold destWrite at h
    cases hdw : destWrite projectDir destPath ls p with
    | some r =>
      rw [hdw] at h
      simp only [Option.some.injEq] at h
      obtain ⟨j, hj, u, hu⟩ := ih p r hdw
      exact ⟨j, List.mem_cons_of_mem _ hj, u, by rw [← h, hu]⟩
    | none =>
      rw [hdw] at h
      by_cases hp : pre (destPath ++ l.2) p = true
      · simp only [if_pos hp, Option.some.injEq] at h
        exact ⟨l, List.mem_cons_self _ _, p.drop (destPath ++ l.2).length, h.symm⟩
      · simp only [if_neg hp] at h
        exact Option.noConfusion h

/-- Paths below no destination tree are not rewritten. -/
theorem destWrite_eq_none (projectDir destPath : List String) :
    ∀ (ps : List (List String × List String)) (p : List String),
      (∀ l ∈ ps, pre (destPath ++ l.2) p = false) →
      destWrite projectDir destPath ps p = none := by
  intro ps
  induction ps with
  | nil => intro p _; rfl
  | cons l ls ih =>
    intro p h
    unfold destWrite
    rw [ih p (fun j hj => h j (List.mem_cons_of_mem _ hj)),
      h l (List.mem_cons_self _ _)]
    simp

/-- Equation lemma: `destWrite` on the empty pair list. -/
theorem destWrite_nil (projectDir destPath : List String) (p : List String) :
    destWrite projectDir destPath [] p = none := rfl

/-- Equation lemma: `destWrite` on a cons checks the later pairs first and
falls back to the head pair. -/
theorem destWrite_cons (projectDir destPath : List String)
    (l : List String × List String) (ls : List (List String × List String))
    (p : List String) :
    destWrite projectDir destPath (l :: ls) p =
      (match destWrite projectDir destPath ls p with
        | some q => some q
        | none =>
          if pre (destPath ++ l.2) p then
            some (projectDir ++ l.1 ++ p.drop (destPath ++ l.2).length)
          else none) := rfl

/-- Pointwise evaluation of the copy step under the separation hypothesis:
each path below some destination tree ends up holding the contents the
starting filesystem had at the corresponding path below the source of the
last pair covering it, and every other path is untouched. -/
theorem syncFiles_eval (projectDir destPath : List String) :
    ∀ (ps : List (List String × List String)),
      sepPairs projectDir destPath ps →
      ∀ (fs : FS) (p : List String),
        syncFiles projectDir destPath ps fs p =
          (match destWrite projectDir destPath ps p with
            | some q => fs q
            | none => fs p) := by
  intro ps
  induction ps with
  | nil => intro _ fs p; rfl
  | cons l ls ih =>
    intro hsep fs p
    have hsep' : sepPairs projectDir destPath ls := fun l₁ h₁ l₂ h₂ =>
      hsep l₁ (List.mem_cons_of_mem _ h₁) l₂ (List.mem_cons_of_mem _ h₂)
    have hstep := ih hsep'
      (copyTree (projectDir ++ l.1) (destPath ++ l.2)
        (removeTree (destPath ++ l.2) fs)) p
    rw [show syncFiles projectDir destPath (l :: ls) fs =
        syncFiles projectDir destPath ls
          (copyTree (projectDir ++ l.1) (destPath ++ l.2)
            (removeTree (destPath ++ l.2) fs)) from rfl]
    rw [hstep, destWrite_cons]
    cases hdw : destWrite projectDir destPath ls p with
    | some q =>
      obtain ⟨j, hj, u, rfl⟩ := destWrite_shape projectDir destPath ls p q hdw
      have hinc := hsep j (List.mem_cons_of_mem _ hj) l (List.mem_cons_self _ _)
      have hnp : pre (destPath ++ l.2) (projectDir ++ (j.1 ++ u)) = false := by
        simpa [List.append_assoc] using
          pre_append_false (destPath ++ l.2) (projectDir ++ j.1) u hinc.2 hinc.1
      simp [copyTree, removeTree, hnp]
    | none =>
      cases hp : pre (destPath ++ l.2) p with
      | true =>
        have hinc := hsep l (List.mem_cons_self _ _) l (List.mem_cons_self _ _)
        have hnp : pre (destPath ++ l.2)
            (projectDir ++ (l.1 ++ List.drop (destPath.length + l.2.length) p)) = false := by
          simpa [List.append_assoc, List.length_append] using
            pre_append_false (destPath ++ l.2) (projectDir ++ l.1)
              (p.drop (destPath ++ l.2).length) hinc.2 hinc.1
        simp [copyTree, removeTree, hp, hnp]
      | false =>
        simp [copyTree, removeTree, hp]

/-- Auxiliary idempotence fact: a rewritten point lies below a source tree,
so a second pass of the copy step does not move it again. -/
theorem destWrite_of_destWrite_eq_none (projectDir destPath : List String)
    (ps : List (List String × List String))
    (hsep : sepPairs projectDir destPath ps) (p q : List String)
    (hdw : destWrite projectDir destPath ps p = some q) :
    destWrite projectDir destPath ps q = none := by
  obtain ⟨j, hj, u, rfl⟩ := destWrite_shape projectDir destPath ps p q hdw
  refine destWrite_eq_none projectDir destPath ps _ (fun l hl => ?_)
  have hinc := hsep j hj l hl
  exact pre_append_false (destPath ++ l.2) (projectDir ++ j.1) u hinc.2 hinc.1

/-- C7 (amended): the deployment-files copy step is idempotent whenever no
resolved source path and resolved destination path of any two pairs lie in
one another's trees - which holds in a real run, where destinations
resolve below the fresh temporary workspace and sources below the project
directory: performing the remove-then-copy sequence for all pairs twice
yields the same final filesystem contents as performing it once. -/
theorem syncFiles_idem_of_sep (projectDir destPath : List String)
    (ps : List (List String × List String))
    (hsep : sepPairs projectDir destPath ps) (fs : FS) :
    syncFiles projectDir destPath ps (syncFiles projectDir destPath ps fs) =
      syncFiles projectDir destPath ps fs := by
  funext p
  rw [syncFiles_eval projectDir destPath ps hsep
      (syncFiles projectDir destPath ps fs) p,
    syncFiles_eval projectDir destPath ps hsep fs p]
  cases hdw : destWrite projectDir destPath ps p with
  | none => rfl
  | some q =>
    show syncFiles projectDir destPath ps fs q = fs q
    rw [syncFiles_eval projectDir destPath ps hsep fs q,
      destWrite_of_destWrite_eq_none projectDir destPath ps hsep p q hdw]

/-- Witness for the amended C7 theorem at concrete disjoint trees. -/
theorem syncFiles_idem_of_sep_w :
    syncFiles ["p"] ["q"] [(["s"], ["t"])]
        (syncFiles ["p"] ["q"] [(["s"], ["t"])] fsW) =
      syncFiles ["p"] ["q"] [(["s"], ["t"])] fsW :=
  syncFiles_idem_of_sep ["p"] ["q"] [(["s"], ["t"])] (by unfold sepPairs; decide) fsW

/-- C7 (counterexample): with a destination tree lying inside a source
tree, running the copy step twice differs from running it once - the claim
quantifies over every pair list and every starting filesystem state, so
idempotence fails as stated. -/
theorem syncFiles_not_idempotent_overlap :
    ¬ (syncFiles ["d", "a"] ["d"] pairsW (syncFiles ["d", "a"] ["d"] pairsW fsW) =
        syncFiles ["d", "a"] ["d"] pairsW fsW) := fun h =>
  absurd (congrFun h ["d", "b"]) (by decide)

/-- The deployment-files loop terminates with the oracle outcome. -/
theorem copyLoop_snd (projectDir dp : String) :
    ∀ (ps : List (String × String)) (failAt : Option Nat) (ce : String),
      (copyLoop projectDir dp ps failAt ce).2 = copyResult ps failAt ce := by
  intro ps
  induction ps with
  | nil =>
    intro failAt ce
    cases failAt <;> simp [copyLoop, copyResult]
  | cons l ls ih =>
    intro failAt ce
    match failAt with
    | none => simp [copyLoop, copyResult, ih none ce]
    | some 0 => simp [copyLoop, copyResult]
    | some (n + 1) =>
      simp [copyLoop, copyResult, ih (some n) ce, Nat.succ_lt_succ_iff]

/-- The deployment-files loop emits only remove and copy events. -/
theorem copyLoop_events (projectDir dp : String) :
    ∀ (ps : List (String × String)) (failAt : Option Nat) (ce : String)
      (ev : Event), ev ∈ (copyLoop projectDir dp ps failAt ce).1 →
      (∃ p, ev = Event.removeSync p) ∨ ∃ s t, ev = Event.copySync s t := by
  intro ps
  induction ps with
  | nil => intro failAt ce ev h; simp [copyLoop] at h
  | cons l ls ih =>
    intro failAt ce ev h
    match failAt with
    | none =>
      simp only [copyLoop, List.mem_cons] at h
      rcases h with rfl | rfl | h
      · exact Or.inl ⟨_, rfl⟩
      · exact Or.inr ⟨_, _, rfl⟩
      · exact ih none ce ev h
    | some 0 =>
      simp only [copyLoop, List.mem_singleton] at h
      exact Or.inl ⟨_, h⟩
    | some (n + 1) =>
      simp only [copyLoop, List.mem_cons] at h
      rcases h with rfl | rfl | h
      · exact Or.inl ⟨_, rfl⟩
      · exact Or.inr ⟨_, _, rfl⟩
      · exact ih (some n) ce ev h

/-- The deployment-files loop invokes no callback. -/
theorem copyLoop_filter_cb (projectDir dp : String)
    (ps : List (String × String)) (failAt : Option Nat) (ce : String) :
    (copyLoop projectDir dp ps failAt ce).1.filter isCb = [] := by
  rw [List.filter_eq_nil_iff]
  intro ev hev
  rcases copyLoop_events projectDir dp ps failAt ce ev hev with ⟨p, rfl⟩ | ⟨s, t, rfl⟩ <;>
    simp [isCb]

/-- The deployment-files loop starts no process. -/
theorem copyLoop_count_invoke (projectDir dp : String)
    (ps : List (String × String)) (failAt : Option Nat) (ce : String)
    (c : GitCmd) :
    (copyLoop projectDir dp ps failAt ce).1.count (Event.invoke c) = 0 := by
  rw [List.count_eq_zero]
  intro hmem
  rcases copyLoop_events projectDir dp ps failAt ce _ hmem with ⟨p, h⟩ | ⟨s, t, h⟩ <;>
    exact Event.noConfusion h

/-- On a created workspace the catch handler appends exactly one callback
invocation, carrying the error unchanged, after the conditional workspace
removal. -/
theorem catchResult_filter_cb (debug : Bool) (evs : List Event)
    (d : String) (created : Bool) (e : String) :
    (catchResult debug evs (some d) created e).events.filter isCb =
      evs.filter isCb ++ [Event.cb e] := by
  cases debug <;> simp [catchResult, List.filter_append, isCb]

/-- Callback invocations of the pipeline tail: those already in the prefix
plus exactly the one of the first failing step, if any. -/
theorem runRest_filter_cb (options : String → JVal) (projectDir d : String)
    (debug : Bool) (env : Env) (evs : List Event) :
    (runRest options projectDir d debug env evs).events.filter isCb =
      evs.filter isCb ++
        cbTrail (firstErrorRest (jpairsOf (options "deploymentFiles")) env) := by
  obtain ⟨mk, cl, co, cob, bu, cfa, ce, ad, cm, pu⟩ := env
  cases bu with
  | some e =>
    simp [runRest, firstErrorRest, catchResult_filter_cb, List.filter_append,
      isCb, cbTrail]
  | none =>
    simp only [runRest, firstErrorRest, copyLoop_snd]
    cases hcp : copyResult (jpairsOf (options "deploymentFiles")) cfa ce with
    | some e =>
      simp [catchResult_filter_cb, List.filter_append, isCb, cbTrail,
        copyLoop_filter_cb]
    | none =>
      cases ad with
      | some e =>
        simp [catchResult_filter_cb, List.filter_append, isCb, cbTrail,
          copyLoop_filter_cb]
      | none =>
        cases cm with
        | some e =>
          simp [catchResult_filter_cb, List.filter_append, isCb, cbTrail,
            copyLoop_filter_cb]
        | none =>
          cases pu with
          | some e =>
            simp [catchResult_filter_cb, List.filter_append, isCb, cbTrail,
              copyLoop_filter_cb]
          | none =>
            cases debug <;>
              simp [List.filter_append, isCb, cbTrail, copyLoop_filter_cb]

/-- Whatever happens in the pipeline tail, the workspace directory exists
at the end exactly when debug is set, and the workspace path is kept. -/
theorem runRest_ws (options : String → JVal) (projectDir d : String)
    (debug : Bool) (env : Env) (evs : List Event) :
    (runRest options projectDir d debug env evs).wsExists = debug ∧
      (runRest options projectDir d debug env evs).destPath = some d := by
  obtain ⟨mk, cl, co, cob, bu, cfa, ce, ad, cm, pu⟩ := env
  cases bu with
  | some e => simp [runRest, catchResult]
  | none =>
    simp only [runRest]
    cases hcp : (copyLoop projectDir d (jpairsOf (options "deploymentFiles")) cfa ce).2 with
    | some e => simp [catchResult]
    | none =>
      cases ad with
      | some e => simp [catchResult]
      | none =>
        cases cm with
        | some e => simp [catchResult]
        | none =>
          cases pu with
          | some e => simp [catchResult]
          | none => simp

/-- The pipeline tail issues no checkout-shaped git invocation beyond
those already in the prefix. -/
theorem runRest_count_invoke (options : String → JVal) (projectDir d : String)
    (debug : Bool) (env : Env) (evs : List Event) (c : GitCmd)
    (h1 : ∀ wd, GitCmd.addAll wd ≠ c)
    (h2 : ∀ wd m a, GitCmd.commit wd m a ≠ c)
    (h3 : ∀ wd b, GitCmd.push wd b ≠ c) :
    (runRest options projectDir d debug env evs).events.count (Event.invoke c) =
      evs.count (Event.invoke c) := by
  obtain ⟨mk, cl, co, cob, bu, cfa, ce, ad, cm, pu⟩ := env
  cases bu with
  | some e =>
    cases debug <;>
      simp [runRest, catchResult, List.count_append, List.count_cons,
        beq_iff_eq]
  | none =>
    simp only [runRest]
    cases hcp : (copyLoop projectDir d (jpairsOf (options "deploymentFiles")) cfa ce).2 with
    | some e =>
      cases debug <;>
        simp [catchResult, List.count_append, List.count_cons, beq_iff_eq,
          copyLoop_count_invoke]
    | none =>
      cases ad with
      | some e =>
        cases debug <;>
          simp [catchResult, List.count_append, List.count_cons, beq_iff_eq,
            copyLoop_count_invoke, h1]
      | none =>
        cases cm with
        | some e =>
          cases debug <;>
            simp [catchResult, List.count_append, List.count_cons, beq_iff_eq,
              copyLoop_count_invoke, h1, h2]
        | none =>
          cases pu with
          | some e =>
            cases debug <;>
              simp [catchResult, List.count_append, List.count_cons,
                beq_iff_eq, copyLoop_count_invoke, h1, h2, h3]
          | none =>
            cases debug <;>
              simp [List.count_append, List.count_cons, beq_iff_eq,
                copyLoop_count_invoke, h1, h2, h3]

/-- Whenever the pipeline tail reaches the commit step, the trace holds a
commit invocation with the configured message and, exactly when a name is
set, an author of the shape name, space, email in angle brackets, the
email defaulting to the empty string. -/
theorem runRest_commit_mem (options : String → JVal) (projectDir d : String)
    (debug : Bool) (env : Env) (evs : List Event)
    (hb : env.build = none)
    (hcp : copyResult (jpairsOf (options "deploymentFiles")) env.copyFailAt
      env.copyErr = none)
    (ha : env.addAll = none) :
    Event.invoke (GitCmd.commit (pathJoin projectDir d) (jstr (options "message"))
        (if truthy (options "name")
          then some (jstr (options "name") ++ " <" ++
            (if truthy (options "email") then jstr (options "email") else "") ++ ">")
          else none))
      ∈ (runRest options projectDir d debug env evs).events := by
  obtain ⟨mk, cl, co, cob, bu, cfa, ce, ad, cm, pu⟩ := env
  cases hb
  cases ha
  simp only [runRest, copyLoop_snd]
  simp only at hcp
  rw [hcp]
  cases cm with
  | some e => simp [catchResult]
  | none =>
    cases pu with
    | some e => simp [catchResult]
    | none => simp

/-- The callback invocations of a whole pipeline run: exactly one, with
the verbatim error of the first fatally failing step, except that a
workspace-creation failure with debug unset delivers nothing because the
catch handler throws while removing the undefined workspace path. -/
theorem pipeline_filter_cb (options : String → JVal) (projectDir : String)
    (env : Env) :
    (pipelineRun options projectDir env).events.filter isCb =
      deliveredCb (truthy (options "debug"))
        (jpairsOf (options "deploymentFiles")) env := by
  obtain ⟨mk, cl, co, cob, bu, cfa, ce, ad, cm, pu⟩ := env
  cases mk with
  | error e =>
    cases hdbg : truthy (options "debug") <;>
      simp [pipelineRun, deliveredCb, catchResult, isCb, hdbg]
  | ok d =>
    cases cl with
    | some e =>
      simp [pipelineRun, deliveredCb, firstError, catchResult_filter_cb,
        List.filter_append, isCb, cbTrail]
    | none =>
      cases co with
      | none =>
        simp only [pipelineRun, deliveredCb, firstError]
        rw [runRest_filter_cb]
        simp [isCb]
      | some e1 =>
        cases cob with
        | some e2 =>
          simp [pipelineRun, deliveredCb, firstError, catchResult_filter_cb,
            List.filter_append, isCb, cbTrail]
        | none =>
          simp only [pipelineRun, deliveredCb, firstError]
          rw [runRest_filter_cb]
          simp [isCb]

/-- Once the workspace has been created, it exists at the end of the run
exactly when debug is set, whatever the outcome of the later steps. -/
theorem pipeline_ws (options : String → JVal) (projectDir d : String)
    (env : Env) (hmk : env.mktemp = Except.ok d) :
    (pipelineRun options projectDir env).wsExists = truthy (options "debug") ∧
      (pipelineRun options projectDir env).destPath = some d := by
  obtain ⟨mk, cl, co, cob, bu, cfa, ce, ad, cm, pu⟩ := env
  simp only at hmk
  cases hmk
  cases cl with
  | some e => simp [pipelineRun, catchResult]
  | none =>
    cases co with
    | none =>
      simp only [pipelineRun]
      exact runRest_ws options projectDir d (truthy (options "debug")) _ _
    | some e1 =>
      cases cob with
      | some e2 => simp [pipelineRun, catchResult]
      | none =>
        simp only [pipelineRun]
        exact runRest_ws options projectDir d (truthy (options "debug")) _ _

/-- With the three required options truthy and no email-without-name, the
validation of lines 95 to 111 passes and the run is the pipeline. -/
theorem run_valid (cfg cli : String → JVal) (projectDir : String) (env : Env)
    (h1 : truthy (mergedOptions cfg cli "remote") = true)
    (h2 : truthy (mergedOptions cfg cli "branch") = true)
    (h3 : truthy (mergedOptions cfg cli "message") = true)
    (h4 : truthy (mergedOptions cfg cli "email") = true →
      truthy (mergedOptions cfg cli "name") = true) :
    aquiferGitRun cfg cli projectDir "deploy-git" env =
      pipelineRun (mergedOptions cfg cli) projectDir env := by
  cases he : truthy (mergedOptions cfg cli "email") with
  | false => simp [aquiferGitRun, requiredOptions, h1, h2, h3, he]
  | true => simp [aquiferGitRun, requiredOptions, h1, h2, h3, he, h4 he]

/-- C1 (code bug): the pipeline does not surface every failure through
the callback. When `mktemp.createDir` rejects with debug unset, the catch
handler of lines 217 to 222 calls `fs.removeSync(destPath)` while
`destPath` is still undefined; fs-extra throws on a non-string path, so
`callback(err)` on line 221 never runs and the workspace-creation error is
lost. With debug set the removal is skipped and the error is delivered,
and for every later step the first failing step's error reaches the
callback verbatim, as the third conjunct illustrates. -/
theorem mktemp_failure_error_swallowed :
    (aquiferGitRun cfgW cliW "proj" "deploy-git" envMktempFailW).events =
        [Event.mktempCall, Event.removeSyncUndefined] ∧
      (aquiferGitRun cfgDebugW cliW "proj" "deploy-git" envMktempFailW).events =
        [Event.mktempCall, Event.cb "mktemp failed"] ∧
      (aquiferGitRun cfgW cliW "proj" "deploy-git" envPushFailW).events.filter isCb =
        [Event.cb "push rejected"] := by
  refine ⟨?_, ?_, ?_⟩ <;> decide

/-- C2: for every run that created a workspace, whatever the outcome of
the later steps, the workspace directory exists at the end of the run
exactly when the debug flag is truthy, and the run keeps the created
path. -/
theorem workspace_cleanup_by_debug (cfg cli : String → JVal)
    (projectDir : String) (env : Env) (d : String)
    (h1 : truthy (mergedOptions cfg cli "remote") = true)
    (h2 : truthy (mergedOptions cfg cli "branch") = true)
    (h3 : truthy (mergedOptions cfg cli "message") = true)
    (h4 : truthy (mergedOptions cfg cli "email") = true →
      truthy (mergedOptions cfg cli "name") = true)
    (hmk : env.mktemp = Except.ok d) :
    (aquiferGitRun cfg cli projectDir "deploy-git" env).wsExists =
        truthy (mergedOptions cfg cli "debug") ∧
      (aquiferGitRun cfg cli projectDir "deploy-git" env).destPath = some d := by
  rw [run_valid cfg cli projectDir env h1 h2 h3 h4]
  exact pipeline_ws (mergedOptions cfg cli) projectDir d env hmk

/-- Witness for C2: a concrete fatally failing run with debug unset ends
with the workspace gone. -/
theorem workspace_cleanup_by_debug_w :
    (aquiferGitRun cfgW cliW "proj" "deploy-git" envCheckoutFailW).wsExists =
        truthy (mergedOptions cfgW cliW "debug") ∧
      (aquiferGitRun cfgW cliW "proj" "deploy-git" envCheckoutFailW).destPath =
        some "aquifer-git-abc1234" :=
  workspace_cleanup_by_debug cfgW cliW "proj" envCheckoutFailW "aquifer-git-abc1234"
    (by decide) (by decide) (by decide) (by decide) rfl

/-- C3: when the checkout of the target branch fails, the run issues the
checkout exactly once and the create-and-checkout fallback exactly once,
whatever the fallback outcome; and when the fallback also fails, the run
delivers exactly that error to the callback and, with debug unset, the
workspace directory is gone. -/
theorem checkout_fallback_once (cfg cli : String → JVal) (projectDir : String)
    (env : Env) (d e1 : String)
    (h1 : truthy (mergedOptions cfg cli "remote") = true)
    (h2 : truthy (mergedOptions cfg cli "branch") = true)
    (h3 : truthy (mergedOptions cfg cli "message") = true)
    (h4 : truthy (mergedOptions cfg cli "email") = true →
      truthy (mergedOptions cfg cli "name") = true)
    (hmk : env.mktemp = Except.ok d) (hcl : env.clone = none)
    (hco : env.checkout = some e1) :
    (aquiferGitRun cfg cli projectDir "deploy-git" env).events.count
        (Event.invoke (GitCmd.checkout (pathJoin projectDir d)
          (jstr (mergedOptions cfg cli "branch")))) = 1 ∧
    (aquiferGitRun cfg cli projectDir "deploy-git" env).events.count
        (Event.invoke (GitCmd.checkoutNew (pathJoin projectDir d)
          (jstr (mergedOptions cfg cli "branch")))) = 1 ∧
    ∀ e2, env.checkoutB = some e2 →
      (aquiferGitRun cfg cli projectDir "deploy-git" env).events.filter isCb =
          [Event.cb e2] ∧
        (truthy (mergedOptions cfg cli "debug") = false →
          (aquiferGitRun cfg cli projectDir "deploy-git" env).wsExists = false) := by
  rw [run_valid cfg cli projectDir env h1 h2 h3 h4]
  obtain ⟨mk, cl, co, cob, bu, cfa, ce, ad, cm, pu⟩ := env
  replace hmk : mk = Except.ok d := hmk
  replace hcl : cl = none := hcl
  replace hco : co = some e1 := hco
  cases hmk
  cases hcl
  cases hco
  simp only [pipelineRun]
  cases cob with
  | some e2 =>
    refine ⟨?_, ?_, ?_⟩
    · cases hdbg : truthy (mergedOptions cfg cli "debug") <;>
        simp [catchResult, List.count_append, List.count_cons, List.count_nil,
          beq_iff_eq, hdbg]
    · cases hdbg : truthy (mergedOptions cfg cli "debug") <;>
        simp [catchResult, List.count_append, List.count_cons, List.count_nil,
          beq_iff_eq, hdbg]
    · intro e2' he2'
      simp only [Option.some.injEq] at he2'
      cases he2'
      constructor
      · rw [catchResult_filter_cb]
        simp [isCb]
      · intro hdbg
        simp [catchResult, hdbg]
  | none =>
    refine ⟨?_, ?_, ?_⟩
    · rw [runRest_count_invoke _ _ _ _ _ _ _ (fun wd => by simp)
        (fun wd m a => by simp) (fun wd b => by simp)]
      simp [List.count_append, List.count_cons, List.count_nil, beq_iff_eq]
    · rw [runRest_count_invoke _ _ _ _ _ _ _ (fun wd => by simp)
        (fun wd m a => by simp) (fun wd b => by simp)]
      simp [List.count_append, List.count_cons, List.count_nil, beq_iff_eq]
    · intro e2 he2
      exact Option.noConfusion (show (none : Option String) = some e2 from he2)

/-- Witness for C3: a concrete run in which checkout and fallback both
fail issues each checkout once, reports the fallback error, and ends with
the workspace removed. -/
theorem checkout_fallback_once_w :
    (aquiferGitRun cfgW cliW "proj" "deploy-git" envCheckoutFailW).events.count
        (Event.invoke (GitCmd.checkout (pathJoin "proj" "aquifer-git-abc1234")
          (jstr (mergedOptions cfgW cliW "branch")))) = 1 ∧
    (aquiferGitRun cfgW cliW "proj" "deploy-git" envCheckoutFailW).events.count
        (Event.invoke (GitCmd.checkoutNew (pathJoin "proj" "aquifer-git-abc1234")
          (jstr (mergedOptions cfgW cliW "branch")))) = 1 ∧
    ∀ e2, envCheckoutFailW.checkoutB = some e2 →
      (aquiferGitRun cfgW cliW "proj" "deploy-git" envCheckoutFailW).events.filter isCb =
          [Event.cb e2] ∧
        (truthy (mergedOptions cfgW cliW "debug") = false →
          (aquiferGitRun cfgW cliW "proj" "deploy-git" envCheckoutFailW).wsExists = false) :=
  checkout_fallback_once cfgW cliW "proj" envCheckoutFailW "aquifer-git-abc1234"
    "checkout failed" (by decide) (by decide) (by decide) (by decide)
    rfl rfl rfl

/-- C4: when any of the required options remote, branch or message is
falsy after merging, the run only invokes the callback - among them once
for the missing option - creates no workspace, and performs no process or
filesystem action at all. -/
theorem missing_required_no_side_effects (cfg cli : String → JVal)
    (projectDir : String) (env : Env)
    (hmiss : truthy (mergedOptions cfg cli "remote") = false ∨
      truthy (mergedOptions cfg cli "branch") = false ∨
      truthy (mergedOptions cfg cli "message") = false) :
    (∀ ev ∈ (aquiferGitRun cfg cli projectDir "deploy-git" env).events,
        isCb ev = true) ∧
      (aquiferGitRun cfg cli projectDir "deploy-git" env).destPath = none ∧
      ∃ n ∈ requiredOptions, truthy (mergedOptions cfg cli n) = false ∧
        Event.cb ("\"" ++ n ++ "\" option is missing. Cannot deploy.")
          ∈ (aquiferGitRun cfg cli projectDir "deploy-git" env).events := by
  obtain ⟨n₀, hmem, hn₀⟩ : ∃ n ∈ requiredOptions,
      truthy (mergedOptions cfg cli n) = false := by
    rcases hmiss with h | h | h
    · exact ⟨"remote", by simp [requiredOptions], h⟩
    · exact ⟨"branch", by simp [requiredOptions], h⟩
    · exact ⟨"message", by simp [requiredOptions], h⟩
  have hfmem : n₀ ∈ requiredOptions.filter
      (fun n => !truthy (mergedOptions cfg cli n)) :=
    List.mem_filter.mpr ⟨hmem, by simp [hn₀]⟩
  have hne : requiredOptions.filter
      (fun n => !truthy (mergedOptions cfg cli n)) ≠ [] :=
    List.ne_nil_of_mem hfmem
  simp only [aquiferGitRun]
  rw [if_neg (by simp), if_pos hne]
  refine ⟨?_, rfl, n₀, hmem, hn₀, ?_⟩
  · intro ev hev
    obtain ⟨n, _, rfl⟩ := List.mem_map.mp hev
    rfl
  · exact List.mem_map.mpr ⟨n₀, hfmem, rfl⟩

/-- Witness for C4: with nothing configured, the run only talks to the
callback and reports the missing remote. -/
theorem missing_required_no_side_effects_w :
    (∀ ev ∈ (aquiferGitRun cliW cliW "proj" "deploy-git" envOkW).events,
        isCb ev = true) ∧
      (aquiferGitRun cliW cliW "proj" "deploy-git" envOkW).destPath = none ∧
      ∃ n ∈ requiredOptions, truthy (mergedOptions cliW cliW n) = false ∧
        Event.cb ("\"" ++ n ++ "\" option is missing. Cannot deploy.")
          ∈ (aquiferGitRun cliW cliW "proj" "deploy-git" envOkW).events :=
  missing_required_no_side_effects cliW cliW "proj" envOkW (Or.inl (by decide))

/-- C5: with the required options present, an email set and no name, the
run emits exactly the invalid-signature callback and creates no
workspace. -/
theorem email_without_name_fails_fast (cfg cli : String → JVal)
    (projectDir : String) (env : Env)
    (h1 : truthy (mergedOptions cfg cli "remote") = true)
    (h2 : truthy (mergedOptions cfg cli "branch") = true)
    (h3 : truthy (mergedOptions cfg cli "message") = true)
    (he : truthy (mergedOptions cfg cli "email") = true)
    (hn : truthy (mergedOptions cfg cli "name") = false) :
    (aquiferGitRun cfg cli projectDir "deploy-git" env).events =
        [Event.cb "Name is required for a custom commit signature if the email is provided."] ∧
      (aquiferGitRun cfg cli projectDir "deploy-git" env).destPath = none := by
  refine ⟨?_, ?_⟩ <;>
    simp [aquiferGitRun, requiredOptions, h1, h2, h3, he, hn]

/-- Witness for C5 at a concrete config carrying an email but no name. -/
theorem email_without_name_fails_fast_w :
    (aquiferGitRun cfgEmailW cliW "proj" "deploy-git" envOkW).events =
        [Event.cb "Name is required for a custom commit signature if the email is provided."] ∧
      (aquiferGitRun cfgEmailW cliW "proj" "deploy-git" envOkW).destPath = none :=
  email_without_name_fails_fast cfgEmailW cliW "proj" envOkW
    (by decide) (by decide) (by decide) (by decide) (by decide)

/-- C9: the run reports every missing required option through its own
callback invocation, in the order remote, branch, message, so several
missing options yield several callback messages before the run returns. -/
theorem missing_options_one_callback_each (cfg cli : String → JVal)
    (projectDir : String) (env : Env)
    (hm : 2 ≤ (requiredOptions.filter
      (fun n => !truthy (mergedOptions cfg cli n))).length) :
    (aquiferGitRun cfg cli projectDir "deploy-git" env).events =
      (requiredOptions.filter (fun n => !truthy (mergedOptions cfg cli n))).map
        (fun n => Event.cb ("\"" ++ n ++ "\" option is missing. Cannot deploy.")) := by
  have hne : requiredOptions.filter
      (fun n => !truthy (mergedOptions cfg cli n)) ≠ [] := by
    intro h
    rw [h] at hm
    simp at hm
  simp only [aquiferGitRun]
  rw [if_neg (by simp), if_pos hne]

/-- Witness for C9: with all three required options missing the run emits
exactly their three messages, in order. -/
theorem missing_options_one_callback_each_w :
    (aquiferGitRun cliW cliW "proj" "deploy-git" envOkW).events =
      (requiredOptions.filter (fun n => !truthy (mergedOptions cliW cliW n))).map
        (fun n => Event.cb ("\"" ++ n ++ "\" option is missing. Cannot deploy.")) :=
  missing_options_one_callback_each cliW cliW "proj" envOkW (by decide)

/-- C10: option merging is truthiness-based - a falsy static-config or
command-line value never overrides the accumulated value, so the built-in
defaults survive unless replaced by a truthy value, a truthy static value
survives a falsy command-line value, and a truthy command-line value
always wins. -/
theorem merge_truthiness (cfg cli : String → JVal) (name : String) :
    (truthy (cfg name) = false → truthy (cli name) = false →
      mergedOptions cfg cli name = gitDefaults name) ∧
    (truthy (cfg name) = true → truthy (cli name) = false →
      mergedOptions cfg cli name = cfg name) ∧
    (truthy (cli name) = true → mergedOptions cfg cli name = cli name) := by
  refine ⟨fun hc hl => ?_, fun hc hl => ?_, fun hl => ?_⟩ <;>
    simp [mergedOptions, customize, *]

/-- Witness for C10: the deploymentFiles default survives an all-falsy
merge, and a configured branch survives a falsy command line. -/
theorem merge_truthiness_w :
    mergedOptions cliW cliW "deploymentFiles" = gitDefaults "deploymentFiles" ∧
      mergedOptions cfgW cliW "branch" = cfgW "branch" :=
  ⟨(merge_truthiness cliW cliW "deploymentFiles").1 (by decide) (by decide),
    (merge_truthiness cfgW cliW "branch").2.1 (by decide) (by decide)⟩

/-- C6: whenever the run reaches the commit step, its trace holds a commit
invocation carrying the configured message, whose author field is present
exactly when a name is set and then reads name, space, and the email in
angle brackets, the email replaced by the empty string when unset; the
rendered command line makes the quoting of lines 186 to 194 explicit. -/
theorem commit_signature_form (cfg cli : String → JVal) (projectDir : String)
    (env : Env) (d : String)
    (h1 : truthy (mergedOptions cfg cli "remote") = true)
    (h2 : truthy (mergedOptions cfg cli "branch") = true)
    (h3 : truthy (mergedOptions cfg cli "message") = true)
    (h4 : truthy (mergedOptions cfg cli "email") = true →
      truthy (mergedOptions cfg cli "name") = true)
    (hmk : env.mktemp = Except.ok d) (hcl : env.clone = none)
    (hco : env.checkout = none ∨ env.checkoutB = none)
    (hb : env.build = none)
    (hcp : copyResult (jpairsOf (mergedOptions cfg cli "deploymentFiles"))
      env.copyFailAt env.copyErr = none)
    (ha : env.addAll = none) :
    Event.invoke (GitCmd.commit (pathJoin projectDir d)
        (jstr (mergedOptions cfg cli "message"))
        (if truthy (mergedOptions cfg cli "name")
          then some (jstr (mergedOptions cfg cli "name") ++ " <" ++
            (if truthy (mergedOptions cfg cli "email")
              then jstr (mergedOptions cfg cli "email") else "") ++ ">")
          else none))
      ∈ (aquiferGitRun cfg cli projectDir "deploy-git" env).events ∧
    renderGit (GitCmd.commit (pathJoin projectDir d)
        (jstr (mergedOptions cfg cli "message"))
        (if truthy (mergedOptions cfg cli "name")
          then some (jstr (mergedOptions cfg cli "name") ++ " <" ++
            (if truthy (mergedOptions cfg cli "email")
              then jstr (mergedOptions cfg cli "email") else "") ++ ">")
          else none)) =
      "git -C " ++ pathJoin projectDir d ++ " commit -m \"" ++
        jstr (mergedOptions cfg cli "message") ++ "\"" ++
        (if truthy (mergedOptions cfg cli "name")
          then " --author \"" ++ (jstr (mergedOptions cfg cli "name") ++ " <" ++
            (if truthy (mergedOptions cfg cli "email")
              then jstr (mergedOptions cfg cli "email") else "") ++ ">") ++ "\""
          else "") := by
  constructor
  · rw [run_valid cfg cli projectDir env h1 h2 h3 h4]
    obtain ⟨mk, cl, co, cob, bu, cfa, ce, ad, cm, pu⟩ := env
    replace hmk : mk = Except.ok d := hmk
    replace hcl : cl = none := hcl
    replace hb : bu = none := hb
    replace ha : ad = none := ha
    replace hcp : copyResult (jpairsOf (mergedOptions cfg cli "deploymentFiles"))
      cfa ce = none := hcp
    cases hmk
    cases hcl
    cases hb
    cases ha
    rcases hco with hco | hco
    · replace hco : co = none := hco
      cases hco
      simp only [pipelineRun]
      exact runRest_commit_mem (mergedOptions cfg cli) projectDir d _ _ _
        rfl hcp rfl
    · replace hco : cob = none := hco
      cases hco
      cases co with
      | none =>
        simp only [pipelineRun]
        exact runRest_commit_mem (mergedOptions cfg cli) projectDir d _ _ _
          rfl hcp rfl
      | some e1 =>
        simp only [pipelineRun]
        exact runRest_commit_mem (mergedOptions cfg cli) projectDir d _ _ _
          rfl hcp rfl
  · cases hn : truthy (mergedOptions cfg cli "name") <;> simp [renderGit, hn]

/-- Witness for C6 at a config with a name and email: the trace holds the
commit invocation with the signature, and its rendering carries the
message and an author clause of the shape name, space, and the email in
angle brackets. -/
theorem commit_signature_form_w :
    Event.invoke (GitCmd.commit (pathJoin "proj" "aquifer-git-abc1234")
        (jstr (mergedOptions cfgAuthorW cliW "message"))
        (if truthy (mergedOptions cfgAuthorW cliW "name")
          then some (jstr (mergedOptions cfgAuthorW cliW "name") ++ " <" ++
            (if truthy (mergedOptions cfgAuthorW cliW "email")
              then jstr (mergedOptions cfgAuthorW cliW "email") else "") ++ ">")
          else none))
      ∈ (aquiferGitRun cfgAuthorW cliW "proj" "deploy-git" envOkW).events ∧
    renderGit (GitCmd.commit (pathJoin "proj" "aquifer-git-abc1234")
        (jstr (mergedOptions cfgAuthorW cliW "message"))
        (if truthy (mergedOptions cfgAuthorW cliW "name")
          then some (jstr (mergedOptions cfgAuthorW cliW "name") ++ " <" ++
            (if truthy (mergedOptions cfgAuthorW cliW "email")
              then jstr (mergedOptions cfgAuthorW cliW "email") else "") ++ ">")
          else none)) =
      "git -C " ++ pathJoin "proj" "aquifer-git-abc1234" ++ " commit -m \"" ++
        jstr (mergedOptions cfgAuthorW cliW "message") ++ "\"" ++
        (if truthy (mergedOptions cfgAuthorW cliW "name")
          then " --author \"" ++ (jstr (mergedOptions cfgAuthorW cliW "name") ++ " <" ++
            (if truthy (mergedOptions cfgAuthorW cliW "email")
              then jstr (mergedOptions cfgAuthorW cliW "email") else "") ++ ">") ++ "\""
          else "") :=
  commit_signature_form cfgAuthorW cliW "proj" envOkW "aquifer-git-abc1234"
    (by decide) (by decide) (by decide) (by decide) rfl rfl (Or.inl rfl)
    rfl (by decide) rfl

/-- A list built around a distinguished element contains it at a valid
index. -/
theorem get_mid (l₂ : List Event) (y : Event) (l₃ : List Event) :
    ∃ j : Fin (l₂ ++ y :: l₃).length, (l₂ ++ y :: l₃).get j = y := by
  induction l₂ with
  | nil => exact ⟨⟨0, by simp⟩, rfl⟩
  | cons a as ih =>
    obtain ⟨j, hj⟩ := ih
    exact ⟨⟨j.val + 1, by simpa using Nat.succ_lt_succ j.isLt⟩, hj⟩

/-- In a list of the shape prefix, x, middle, y, suffix, the event x
occurs strictly before the event y. -/
theorem before_split (l₁ : List Event) (x : Event) (l₂ : List Event)
    (y : Event) (l₃ : List Event) :
    before (l₁ ++ x :: l₂ ++ y :: l₃) x y := by
  induction l₁ with
  | nil =>
    obtain ⟨j, hj⟩ := get_mid l₂ y l₃
    exact ⟨⟨0, by simp⟩, ⟨j.val + 1, by simpa using Nat.succ_lt_succ j.isLt⟩,
      Nat.succ_pos _, rfl, hj⟩
  | cons a as ih =>
    obtain ⟨i, j, hij, hx, hy⟩ := ih
    exact ⟨⟨i.val + 1, by simpa using Nat.succ_lt_succ i.isLt⟩,
      ⟨j.val + 1, by simpa using Nat.succ_lt_succ j.isLt⟩,
      Nat.succ_lt_succ hij, hx, hy⟩

/-- Transport of `before_split` along an equality of traces. -/
theorem before_of_eq (evs : List Event) (x y : Event)
    (l₁ l₂ l₃ : List Event) (h : evs = l₁ ++ x :: l₂ ++ y :: l₃) :
    before evs x y := by
  rw [h]
  exact before_split l₁ x l₂ y l₃

/-- Whatever the outcomes, the pipeline tail only appends to the trace
it is given. -/
theorem runRest_extends (options : String → JVal) (projectDir d : String)
    (debug : Bool) (env : Env) (evs : List Event) :
    ∃ t, (runRest options projectDir d debug env evs).events = evs ++ t := by
  cases hb : env.build with
  | some e => exact ⟨_, by simp [runRest, catchResult, hb]; rfl⟩
  | none =>
    cases hcp : (copyLoop projectDir d (jpairsOf (options "deploymentFiles"))
        env.copyFailAt env.copyErr).2 with
    | some e => exact ⟨_, by simp [runRest, catchResult, hb, hcp]; rfl⟩
    | none =>
      cases ha : env.addAll with
      | some e => exact ⟨_, by simp [runRest, catchResult, hb, hcp, ha]; rfl⟩
      | none =>
        cases hcm : env.commit with
        | some e => exact ⟨_, by simp [runRest, catchResult, hb, hcp, ha, hcm]; rfl⟩
        | none =>
          cases hpu : env.push with
          | some e => exact ⟨_, by simp [runRest, catchResult, hb, hcp, ha, hcm, hpu]; rfl⟩
          | none => exact ⟨_, by simp [runRest, hb, hcp, ha, hcm, hpu]; rfl⟩

/-- In the pipeline tail the build status message always precedes the
builder invocation, whatever the later outcomes. -/
theorem runRest_before_build (options : String → JVal) (projectDir d : String)
    (debug : Bool) (env : Env) (evs : List Event) :
    before (runRest options projectDir d debug env evs).events
      (Event.log "Building the site..." "status")
      (Event.buildCreate (if truthy (options "folder")
        then pathJoin d (jstr (options "folder")) else d)) := by
  obtain ⟨t, ht⟩ : ∃ t, (runRest options projectDir d debug env evs).events =
      evs ++ [Event.log "Building the site..." "status",
        Event.buildCreate (if truthy (options "folder")
          then pathJoin d (jstr (options "folder")) else d)] ++ t := by
    cases hb : env.build with
    | some e => exact ⟨_, by simp [runRest, catchResult, hb]; rfl⟩
    | none =>
      cases hcp : (copyLoop projectDir d (jpairsOf (options "deploymentFiles"))
          env.copyFailAt env.copyErr).2 with
      | some e => exact ⟨_, by simp [runRest, catchResult, hb, hcp]; rfl⟩
      | none =>
        cases ha : env.addAll with
        | some e => exact ⟨_, by simp [runRest, catchResult, hb, hcp, ha]; rfl⟩
        | none =>
          cases hcm : env.commit with
          | some e => exact ⟨_, by simp [runRest, catchResult, hb, hcp, ha, hcm]; rfl⟩
          | none =>
            cases hpu : env.push with
            | some e => exact ⟨_, by simp [runRest, catchResult, hb, hcp, ha, hcm, hpu]; rfl⟩
            | none => exact ⟨_, by simp [runRest, hb, hcp, ha, hcm, hpu]; rfl⟩
  exact before_of_eq _ _ _ evs [] t (by rw [ht]; simp)

/-- When the build succeeds and there is at least one deployment-files
pair, the copy status message precedes the first removal of the loop. -/
theorem runRest_before_copy (options : String → JVal) (projectDir d : String)
    (debug : Bool) (env : Env) (evs : List Event)
    (s₁ t₁ : String) (rest : List (String × String))
    (hb : env.build = none)
    (hp : jpairsOf (options "deploymentFiles") = (s₁, t₁) :: rest) :
    before (runRest options projectDir d debug env evs).events
      (Event.log "Copying deployment files..." "status")
      (Event.removeSync (pathJoin d t₁)) := by
  obtain ⟨t, ht⟩ : ∃ t, (runRest options projectDir d debug env evs).events =
      evs ++ [Event.log "Building the site..." "status",
        Event.buildCreate (if truthy (options "folder")
          then pathJoin d (jstr (options "folder")) else d),
        Event.log "Copying deployment files..." "status",
        Event.removeSync (pathJoin d t₁)] ++ t := by
    cases hcf : env.copyFailAt with
    | none =>
      cases hr : (copyLoop projectDir d rest none env.copyErr).2 with
      | some e =>
        exact ⟨_, by simp [runRest, copyLoop, catchResult, hb, hp, hcf, hr]; rfl⟩
      | none =>
        cases ha : env.addAll with
        | some e =>
          exact ⟨_, by simp [runRest, copyLoop, catchResult, hb, hp, hcf, hr, ha]; rfl⟩
        | none =>
          cases hcm : env.commit with
          | some e =>
            exact ⟨_, by simp [runRest, copyLoop, catchResult, hb, hp, hcf, hr, ha, hcm]; rfl⟩
          | none =>
            cases hpu : env.push with
            | some e =>
              exact ⟨_,
                by simp [runRest, copyLoop, catchResult, hb, hp, hcf, hr, ha, hcm, hpu]; rfl⟩
            | none => exact ⟨_, by simp [runRest, copyLoop, hb, hp, hcf, hr, ha, hcm, hpu]; rfl⟩
    | some n =>
      cases n with
      | zero => exact ⟨_, by simp [runRest, copyLoop, catchResult, hb, hp, hcf]; rfl⟩
      | succ m =>
        cases hr : (copyLoop projectDir d rest (some m) env.copyErr).2 with
        | some e =>
          exact ⟨_, by simp [runRest, copyLoop, catchResult, hb, hp, hcf, hr]; rfl⟩
        | none =>
          cases ha : env.addAll with
          | some e =>
            exact ⟨_, by simp [runRest, copyLoop, catchResult, hb, hp, hcf, hr, ha]; rfl⟩
          | none =>
            cases hcm : env.commit with
            | some e =>
              exact ⟨_,
                by simp [runRest, copyLoop, catchResult, hb, hp, hcf, hr, ha, hcm]; rfl⟩
            | none =>
              cases hpu : env.push with
              | some e =>
                exact ⟨_,
                  by simp [runRest, copyLoop, catchResult, hb, hp, hcf, hr, ha, hcm, hpu]; rfl⟩
              | none =>
                exact ⟨_, by simp [runRest, copyLoop, hb, hp, hcf, hr, ha, hcm, hpu]; rfl⟩
  exact before_of_eq _ _ _
    (evs ++ [Event.log "Building the site..." "status",
      Event.buildCreate (if truthy (options "folder")
        then pathJoin d (jstr (options "folder")) else d)]) []
    t (by rw [ht]; simp)

/-- Once the copy loop has succeeded, the clear-index and add status
messages each precede their filesystem or process action. -/
theorem runRest_before_clear_add (options : String → JVal)
    (projectDir d : String) (debug : Bool) (env : Env) (evs : List Event)
    (hb : env.build = none)
    (hcr : copyResult (jpairsOf (options "deploymentFiles")) env.copyFailAt
      env.copyErr = none) :
    before (runRest options projectDir d debug env evs).events
        (Event.log "Clearing the index..." "status")
        (Event.removeSync (pathJoin (pathJoin projectDir d) ".git/index")) ∧
      before (runRest options projectDir d debug env evs).events
        (Event.log "Adding all files to the index..." "status")
        (Event.invoke (GitCmd.addAll (pathJoin projectDir d))) := by
  obtain ⟨t, ht⟩ : ∃ t, (runRest options projectDir d debug env evs).events =
      evs ++ [Event.log "Building the site..." "status",
        Event.buildCreate (if truthy (options "folder")
          then pathJoin d (jstr (options "folder")) else d),
        Event.log "Copying deployment files..." "status"] ++
      (copyLoop projectDir d (jpairsOf (options "deploymentFiles"))
        env.copyFailAt env.copyErr).1 ++
      [Event.log "Clearing the index..." "status",
        Event.removeSync (pathJoin (pathJoin projectDir d) ".git/index"),
        Event.log "Adding all files to the index..." "status",
        Event.invoke (GitCmd.addAll (pathJoin projectDir d))] ++ t := by
    cases ha : env.addAll with
    | some e => exact ⟨_, by simp [runRest, copyLoop_snd, catchResult, hb, hcr, ha]; rfl⟩
    | none =>
      cases hcm : env.commit with
      | some e =>
        exact ⟨_, by simp [runRest, copyLoop_snd, catchResult, hb, hcr, ha, hcm]; rfl⟩
      | none =>
        cases hpu : env.push with
        | some e =>
          exact ⟨_, by simp [runRest, copyLoop_snd, catchResult, hb, hcr, ha, hcm, hpu]; rfl⟩
        | none => exact ⟨_, by simp [runRest, copyLoop_snd, hb, hcr, ha, hcm, hpu]; rfl⟩
  constructor
  · exact before_of_eq _ _ _
      (evs ++ [Event.log "Building the site..." "status",
        Event.buildCreate (if truthy (options "folder")
          then pathJoin d (jstr (options "folder")) else d),
        Event.log "Copying deployment files..." "status"] ++
        (copyLoop projectDir d (jpairsOf (options "deploymentFiles"))
          env.copyFailAt env.copyErr).1) []
      ([Event.log "Adding all files to the index..." "status",
        Event.invoke (GitCmd.addAll (pathJoin projectDir d))] ++ t)
      (by rw [ht]; simp)
  · exact before_of_eq _ _ _
      (evs ++ [Event.log "Building the site..." "status",
        Event.buildCreate (if truthy (options "folder")
          then pathJoin d (jstr (options "folder")) else d),
        Event.log "Copying deployment files..." "status"] ++
        (copyLoop projectDir d (jpairsOf (options "deploymentFiles"))
          env.copyFailAt env.copyErr).1 ++
        [Event.log "Clearing the index..." "status",
          Event.removeSync (pathJoin (pathJoin projectDir d) ".git/index")]) []
      t (by rw [ht]; simp)

/-- Once the add has succeeded, the commit status message precedes the
commit invocation. -/
theorem runRest_before_commit (options : String → JVal)
    (projectDir d : String) (debug : Bool) (env : Env) (evs : List Event)
    (hb : env.build = none)
    (hcr : copyResult (jpairsOf (options "deploymentFiles")) env.copyFailAt
      env.copyErr = none)
    (ha : env.addAll = none) :
    before (runRest options projectDir d debug env evs).events
      (Event.log "Committing changes..." "status")
      (Event.invoke (GitCmd.commit (pathJoin projectDir d)
        (jstr (options "message"))
        (if truthy (options "name")
          then some (jstr (options "name") ++ " <" ++
            (if truthy (options "email") then jstr (options "email") else "") ++ ">")
          else none))) := by
  obtain ⟨t, ht⟩ : ∃ t, (runRest options projectDir d debug env evs).events =
      evs ++ [Event.log "Building the site..." "status",
        Event.buildCreate (if truthy (options "folder")
          then pathJoin d (jstr (options "folder")) else d),
        Event.log "Copying deployment files..." "status"] ++
      (copyLoop projectDir d (jpairsOf (options "deploymentFiles"))
        env.copyFailAt env.copyErr).1 ++
      [Event.log "Clearing the index..." "status",
        Event.removeSync (pathJoin (pathJoin projectDir d) ".git/index"),
        Event.log "Adding all files to the index..." "status",
        Event.invoke (GitCmd.addAll (pathJoin projectDir d)),
        Event.log "Committing changes..." "status",
        Event.invoke (GitCmd.commit (pathJoin projectDir d)
          (jstr (options "message"))
          (if truthy (options "name")
            then some (jstr (options "name") ++ " <" ++
              (if truthy (options "email") then jstr (options "email") else "") ++ ">")
            else none))] ++ t := by
    cases hcm : env.commit with
    | some e =>
      exact ⟨_, by simp [runRest, copyLoop_snd, catchResult, hb, hcr, ha, hcm]; rfl⟩
    | none =>
      cases hpu : env.push with
      | some e =>
        exact ⟨_, by simp [runRest, copyLoop_snd, catchResult, hb, hcr, ha, hcm, hpu]; rfl⟩
      | none => exact ⟨_, by simp [runRest, copyLoop_snd, hb, hcr, ha, hcm, hpu]; rfl⟩
  exact before_of_eq _ _ _
    (evs ++ [Event.log "Building the site..." "status",
      Event.buildCreate (if truthy (options "folder")
        then pathJoin d (jstr (options "folder")) else d),
      Event.log "Copying deployment files..." "status"] ++
      (copyLoop projectDir d (jpairsOf (options "deploymentFiles"))
        env.copyFailAt env.copyErr).1 ++
      [Event.log "Clearing the index..." "status",
        Event.removeSync (pathJoin (pathJoin projectDir d) ".git/index"),
        Event.log "Adding all files to the index..." "status",
        Event.invoke (GitCmd.addAll (pathJoin projectDir d))]) []
    t (by rw [ht]; simp)

/-- Once the commit has succeeded, the push status message precedes the
push invocation. -/
theorem runRest_before_push (options : String → JVal)
    (projectDir d : String) (debug : Bool) (env : Env) (evs : List Event)
    (hb : env.build = none)
    (hcr : copyResult (jpairsOf (options "deploymentFiles")) env.copyFailAt
      env.copyErr = none)
    (ha : env.addAll = none) (hcm : env.commit = none) :
    before (runRest options projectDir d debug env evs).events
      (Event.log ("Pushing branch: " ++ jstr (options "branch") ++ "...") "status")
      (Event.invoke (GitCmd.push (pathJoin projectDir d)
        (jstr (options "branch")))) := by
  obtain ⟨t, ht⟩ : ∃ t, (runRest options projectDir d debug env evs).events =
      evs ++ [Event.log "Building the site..." "status",
        Event.buildCreate (if truthy (options "folder")
          then pathJoin d (jstr (options "folder")) else d),
        Event.log "Copying deployment files..." "status"] ++
      (copyLoop projectDir d (jpairsOf (options "deploymentFiles"))
        env.copyFailAt env.copyErr).1 ++
      [Event.log "Clearing the index..." "status",
        Event.removeSync (pathJoin (pathJoin projectDir d) ".git/index"),
        Event.log "Adding all files to the index..." "status",
        Event.invoke (GitCmd.addAll (pathJoin projectDir d)),
        Event.log "Committing changes..." "status",
        Event.invoke (GitCmd.commit (pathJoin projectDir d)
          (jstr (options "message"))
          (if truthy (options "name")
            then some (jstr (options "name") ++ " <" ++
              (if truthy (options "email") then jstr (options "email") else "") ++ ">")
            else none)),
        Event.log ("Pushing branch: " ++ jstr (options "branch") ++ "...") "status",
        Event.invoke (GitCmd.push (pathJoin projectDir d)
          (jstr (options "branch")))] ++ t := by
    cases hpu : env.push with
    | some e =>
      exact ⟨_, by simp [runRest, copyLoop_snd, catchResult, hb, hcr, ha, hcm, hpu]; rfl⟩
    | none => exact ⟨_, by simp [runRest, copyLoop_snd, hb, hcr, ha, hcm, hpu]; rfl⟩
  exact before_of_eq _ _ _
    (evs ++ [Event.log "Building the site..." "status",
      Event.buildCreate (if truthy (options "folder")
        then pathJoin d (jstr (options "folder")) else d),
      Event.log "Copying deployment files..." "status"] ++
      (copyLoop projectDir d (jpairsOf (options "deploymentFiles"))
        env.copyFailAt env.copyErr).1 ++
      [Event.log "Clearing the index..." "status",
        Event.removeSync (pathJoin (pathJoin projectDir d) ".git/index"),
        Event.log "Adding all files to the index..." "status",
        Event.invoke (GitCmd.addAll (pathJoin projectDir d)),
        Event.log "Committing changes..." "status",
        Event.invoke (GitCmd.commit (pathJoin projectDir d)
          (jstr (options "message"))
          (if truthy (options "name")
            then some (jstr (options "name") ++ " <" ++
              (if truthy (options "email") then jstr (options "email") else "") ++ ">")
            else none))]) []
    t (by rw [ht]; simp)

/-- In a fully successful tail with debug unset, the cleanup status
message precedes the workspace removal, and the success message comes
only after it. -/
theorem runRest_before_cleanup (options : String → JVal)
    (projectDir d : String) (env : Env) (evs : List Event)
    (hb : env.build = none)
    (hcr : copyResult (jpairsOf (options "deploymentFiles")) env.copyFailAt
      env.copyErr = none)
    (ha : env.addAll = none) (hcm : env.commit = none)
    (hpu : env.push = none) :
    before (runRest options projectDir d false env evs).events
        (Event.log ("Removing the " ++ d ++ " directory...") "status")
        (Event.removeSync d) ∧
      before (runRest options projectDir d false env evs).events
        (Event.removeSync d)
        (Event.log "The site has been successfully deployed!" "success") := by
  have ht : (runRest options projectDir d false env evs).events =
      evs ++ [Event.log "Building the site..." "status",
        Event.buildCreate (if truthy (options "folder")
          then pathJoin d (jstr (options "folder")) else d),
        Event.log "Copying deployment files..." "status"] ++
      (copyLoop projectDir d (jpairsOf (options "deploymentFiles"))
        env.copyFailAt env.copyErr).1 ++
      [Event.log "Clearing the index..." "status",
        Event.removeSync (pathJoin (pathJoin projectDir d) ".git/index"),
        Event.log "Adding all files to the index..." "status",
        Event.invoke (GitCmd.addAll (pathJoin projectDir d)),
        Event.log "Committing changes..." "status",
        Event.invoke (GitCmd.commit (pathJoin projectDir d)
          (jstr (options "message"))
          (if truthy (options "name")
            then some (jstr (options "name") ++ " <" ++
              (if truthy (options "email") then jstr (options "email") else "") ++ ">")
            else none)),
        Event.log ("Pushing branch: " ++ jstr (options "branch") ++ "...") "status",
        Event.invoke (GitCmd.push (pathJoin projectDir d)
          (jstr (options "branch"))),
        Event.log ("Removing the " ++ d ++ " directory...") "status",
        Event.removeSync d,
        Event.log "The site has been successfully deployed!" "success"] := by
    simp [runRest, copyLoop_snd, hb, hcr, ha, hcm, hpu]
  constructor
  · exact before_of_eq _ _ _
      (evs ++ [Event.log "Building the site..." "status",
        Event.buildCreate (if truthy (options "folder")
          then pathJoin d (jstr (options "folder")) else d),
        Event.log "Copying deployment files..." "status"] ++
        (copyLoop projectDir d (jpairsOf (options "deploymentFiles"))
          env.copyFailAt env.copyErr).1 ++
        [Event.log "Clearing the index..." "status",
          Event.removeSync (pathJoin (pathJoin projectDir d) ".git/index"),
          Event.log "Adding all files to the index..." "status",
          Event.invoke (GitCmd.addAll (pathJoin projectDir d)),
          Event.log "Committing changes..." "status",
          Event.invoke (GitCmd.commit (pathJoin projectDir d)
            (jstr (options "message"))
            (if truthy (options "name")
              then some (jstr (options "name") ++ " <" ++
                (if truthy (options "email") then jstr (options "email") else "") ++ ">")
              else none)),
          Event.log ("Pushing branch: " ++ jstr (options "branch") ++ "...") "status",
          Event.invoke (GitCmd.push (pathJoin projectDir d)
            (jstr (options "branch")))]) []
      [Event.log "The site has been successfully deployed!" "success"]
      (by rw [ht]; simp)
  · exact before_of_eq _ _ _
      (evs ++ [Event.log "Building the site..." "status",
        Event.buildCreate (if truthy (options "folder")
          then pathJoin d (jstr (options "folder")) else d),
        Event.log "Copying deployment files..." "status"] ++
        (copyLoop projectDir d (jpairsOf (options "deploymentFiles"))
          env.copyFailAt env.copyErr).1 ++
        [Event.log "Clearing the index..." "status",
          Event.removeSync (pathJoin (pathJoin projectDir d) ".git/index"),
          Event.log "Adding all files to the index..." "status",
          Event.invoke (GitCmd.addAll (pathJoin projectDir d)),
          Event.log "Committing changes..." "status",
          Event.invoke (GitCmd.commit (pathJoin projectDir d)
            (jstr (options "message"))
            (if truthy (options "name")
              then some (jstr (options "name") ++ " <" ++
                (if truthy (options "email") then jstr (options "email") else "") ++ ">")
              else none)),
          Event.log ("Pushing branch: " ++ jstr (options "branch") ++ "...") "status",
          Event.invoke (GitCmd.push (pathJoin projectDir d)
            (jstr (options "branch"))),
          Event.log ("Removing the " ++ d ++ " directory...") "status"]) []
      ([] : List Event)
      (by rw [ht]; simp)

/-- C8 (amended): in every validated run, each step's status message is
emitted before that step's first action whenever the step executes - the
clone, build, copy, clear-index, add, commit, push and cleanup messages
all precede their actions, and the fallback's creating-new-branch message
precedes the create-and-checkout command - with one exception: the
checkout of an existing branch, whose status message the source emits only
after the checkout invocation; and with debug unset the final success
message is emitted only after the cleanup removal. -/
theorem message_order_amended (cfg cli : String → JVal) (projectDir : String)
    (env : Env)
    (h1 : truthy (mergedOptions cfg cli "remote") = true)
    (h2 : truthy (mergedOptions cfg cli "branch") = true)
    (h3 : truthy (mergedOptions cfg cli "message") = true)
    (h4 : truthy (mergedOptions cfg cli "email") = true →
      truthy (mergedOptions cfg cli "name") = true) :
    (∀ d, env.mktemp = Except.ok d →
      before (aquiferGitRun cfg cli projectDir "deploy-git" env).events
        (Event.log ("Cloning the repository into " ++ d ++ "...") "status")
        (Event.invoke (GitCmd.clone (jstr (mergedOptions cfg cli "remote")) d))) ∧
    (∀ d, env.mktemp = Except.ok d → env.clone = none → env.checkout = none →
      before (aquiferGitRun cfg cli projectDir "deploy-git" env).events
        (Event.invoke (GitCmd.checkout (pathJoin projectDir d)
          (jstr (mergedOptions cfg cli "branch"))))
        (Event.log ("Checking out branch: " ++
          jstr (mergedOptions cfg cli "branch") ++ "...") "status")) ∧
    (∀ d e1, env.mktemp = Except.ok d → env.clone = none →
      env.checkout = some e1 →
      before (aquiferGitRun cfg cli projectDir "deploy-git" env).events
        (Event.log ("Creating new branch: " ++
          jstr (mergedOptions cfg cli "branch") ++ "...") "status")
        (Event.invoke (GitCmd.checkoutNew (pathJoin projectDir d)
          (jstr (mergedOptions cfg cli "branch"))))) ∧
    (∀ d, env.mktemp = Except.ok d → env.clone = none →
      env.checkout = none ∨ env.checkoutB = none →
      before (aquiferGitRun cfg cli projectDir "deploy-git" env).events
        (Event.log "Building the site..." "status")
        (Event.buildCreate (if truthy (mergedOptions cfg cli "folder")
          then pathJoin d (jstr (mergedOptions cfg cli "folder")) else d))) ∧
    (∀ d s₁ t₁ rest, env.mktemp = Except.ok d → env.clone = none →
      env.checkout = none ∨ env.checkoutB = none → env.build = none →
      jpairsOf (mergedOptions cfg cli "deploymentFiles") = (s₁, t₁) :: rest →
      before (aquiferGitRun cfg cli projectDir "deploy-git" env).events
        (Event.log "Copying deployment files..." "status")
        (Event.removeSync (pathJoin d t₁))) ∧
    (∀ d, env.mktemp = Except.ok d → env.clone = none →
      env.checkout = none ∨ env.checkoutB = none → env.build = none →
      copyResult (jpairsOf (mergedOptions cfg cli "deploymentFiles"))
        env.copyFailAt env.copyErr = none →
      before (aquiferGitRun cfg cli projectDir "deploy-git" env).events
          (Event.log "Clearing the index..." "status")
          (Event.removeSync (pathJoin (pathJoin projectDir d) ".git/index")) ∧
        before (aquiferGitRun cfg cli projectDir "deploy-git" env).events
          (Event.log "Adding all files to the index..." "status")
          (Event.invoke (GitCmd.addAll (pathJoin projectDir d)))) ∧
    (∀ d, env.mktemp = Except.ok d → env.clone = none →
      env.checkout = none ∨ env.checkoutB = none → env.build = none →
      copyResult (jpairsOf (mergedOptions cfg cli "deploymentFiles"))
        env.copyFailAt env.copyErr = none → env.addAll = none →
      before (aquiferGitRun cfg cli projectDir "deploy-git" env).events
        (Event.log "Committing changes..." "status")
        (Event.invoke (GitCmd.commit (pathJoin projectDir d)
          (jstr (mergedOptions cfg cli "message"))
          (if truthy (mergedOptions cfg cli "name")
            then some (jstr (mergedOptions cfg cli "name") ++ " <" ++
              (if truthy (mergedOptions cfg cli "email")
                then jstr (mergedOptions cfg cli "email") else "") ++ ">")
            else none)))) ∧
    (∀ d, env.mktemp = Except.ok d → env.clone = none →
      env.checkout = none ∨ env.checkoutB = none → env.build = none →
      copyResult (jpairsOf (mergedOptions cfg cli "deploymentFiles"))
        env.copyFailAt env.copyErr = none → env.addAll = none →
      env.commit = none →
      before (aquiferGitRun cfg cli projectDir "deploy-git" env).events
        (Event.log ("Pushing branch: " ++
          jstr (mergedOptions cfg cli "branch") ++ "...") "status")
        (Event.invoke (GitCmd.push (pathJoin projectDir d)
          (jstr (mergedOptions cfg cli "branch"))))) ∧
    (∀ d, env.mktemp = Except.ok d → env.clone = none →
      env.checkout = none ∨ env.checkoutB = none → env.build = none →
      copyResult (jpairsOf (mergedOptions cfg cli "deploymentFiles"))
        env.copyFailAt env.copyErr = none → env.addAll = none →
      env.commit = none → env.push = none →
      truthy (mergedOptions cfg cli "debug") = false →
      before (aquiferGitRun cfg cli projectDir "deploy-git" env).events
          (Event.log ("Removing the " ++ d ++ " directory...") "status")
          (Event.removeSync d) ∧
        before (aquiferGitRun cfg cli projectDir "deploy-git" env).events
          (Event.removeSync d)
          (Event.log "The site has been successfully deployed!" "success")) := by
  rw [run_valid cfg cli projectDir env h1 h2 h3 h4]
  refine ⟨?_, ?_, ?_, ?_, ?_, ?_, ?_, ?_, ?_⟩
  · intro d hmk
    simp only [pipelineRun, hmk]
    cases hcl : env.clone with
    | some e =>
      exact before_of_eq _ _ _ [Event.mktempCall] []
        ((if truthy (mergedOptions cfg cli "debug") then ([] : List Event)
          else [Event.removeSync d]) ++ [Event.cb e])
        (by simp [catchResult])
    | none =>
      cases hco : env.checkout with
      | none =>
        obtain ⟨t, ht⟩ := runRest_extends (mergedOptions cfg cli) projectDir d
          (truthy (mergedOptions cfg cli "debug")) env
          ([Event.mktempCall,
            Event.log ("Cloning the repository into " ++ d ++ "...") "status",
            Event.invoke (GitCmd.clone (jstr (mergedOptions cfg cli "remote")) d)] ++
            [Event.invoke (GitCmd.checkout (pathJoin projectDir d)
              (jstr (mergedOptions cfg cli "branch"))),
             Event.log ("Checking out branch: " ++
               jstr (mergedOptions cfg cli "branch") ++ "...") "status"])
        exact before_of_eq _ _ _ [Event.mktempCall] []
          ([Event.invoke (GitCmd.checkout (pathJoin projectDir d)
              (jstr (mergedOptions cfg cli "branch"))),
            Event.log ("Checking out branch: " ++
              jstr (mergedOptions cfg cli "branch") ++ "...") "status"] ++ t)
          (by rw [ht]; simp)
      | some e1 =>
        cases hcb : env.checkoutB with
        | some e2 =>
          exact before_of_eq _ _ _ [Event.mktempCall] []
            ([Event.invoke (GitCmd.checkout (pathJoin projectDir d)
                (jstr (mergedOptions cfg cli "branch"))),
              Event.log ("Creating new branch: " ++
                jstr (mergedOptions cfg cli "branch") ++ "...") "status",
              Event.invoke (GitCmd.checkoutNew (pathJoin projectDir d)
                (jstr (mergedOptions cfg cli "branch")))] ++
              (if truthy (mergedOptions cfg cli "debug") then ([] : List Event)
                else [Event.removeSync d]) ++ [Event.cb e2])
            (by simp [catchResult])
        | none =>
          obtain ⟨t, ht⟩ := runRest_extends (mergedOptions cfg cli) projectDir d
            (truthy (mergedOptions cfg cli "debug")) env
            ([Event.mktempCall,
              Event.log ("Cloning the repository into " ++ d ++ "...") "status",
              Event.invoke (GitCmd.clone (jstr (mergedOptions cfg cli "remote")) d)] ++
              [Event.invoke (GitCmd.checkout (pathJoin projectDir d)
                (jstr (mergedOptions cfg cli "branch"))),
               Event.log ("Creating new branch: " ++
                 jstr (mergedOptions cfg cli "branch") ++ "...") "status",
               Event.invoke (GitCmd.checkoutNew (pathJoin projectDir d)
                 (jstr (mergedOptions cfg cli "branch")))])
          exact before_of_eq _ _ _ [Event.mktempCall] []
            ([Event.invoke (GitCmd.checkout (pathJoin projectDir d)
                (jstr (mergedOptions cfg cli "branch"))),
              Event.log ("Creating new branch: " ++
                jstr (mergedOptions cfg cli "branch") ++ "...") "status",
              Event.invoke (GitCmd.checkoutNew (pathJoin projectDir d)
                (jstr (mergedOptions cfg cli "branch")))] ++ t)
            (by rw [ht]; simp)
  · intro d hmk hcl hco
    simp only [pipelineRun, hmk, hcl, hco]
    obtain ⟨t, ht⟩ := runRest_extends (mergedOptions cfg cli) projectDir d
      (truthy (mergedOptions cfg cli "debug")) env
      ([Event.mktempCall,
        Event.log ("Cloning the repository into " ++ d ++ "...") "status",
        Event.invoke (GitCmd.clone (jstr (mergedOptions cfg cli "remote")) d)] ++
        [Event.invoke (GitCmd.checkout (pathJoin projectDir d)
          (jstr (mergedOptions cfg cli "branch"))),
         Event.log ("Checking out branch: " ++
           jstr (mergedOptions cfg cli "branch") ++ "...") "status"])
    exact before_of_eq _ _ _
      [Event.mktempCall,
        Event.log ("Cloning the repository into " ++ d ++ "...") "status",
        Event.invoke (GitCmd.clone (jstr (mergedOptions cfg cli "remote")) d)] []
      t (by rw [ht]; simp)
  · intro d e1 hmk hcl hco
    simp only [pipelineRun, hmk, hcl, hco]
    cases hcb : env.checkoutB with
    | some e2 =>
      exact before_of_eq _ _ _
        [Event.mktempCall,
          Event.log ("Cloning the repository into " ++ d ++ "...") "status",
          Event.invoke (GitCmd.clone (jstr (mergedOptions cfg cli "remote")) d),
          Event.invoke (GitCmd.checkout (pathJoin projectDir d)
            (jstr (mergedOptions cfg cli "branch")))] []
        ((if truthy (mergedOptions cfg cli "debug") then ([] : List Event)
          else [Event.removeSync d]) ++ [Event.cb e2])
        (by simp [catchResult])
    | none =>
      obtain ⟨t, ht⟩ := runRest_extends (mergedOptions cfg cli) projectDir d
        (truthy (mergedOptions cfg cli "debug")) env
        ([Event.mktempCall,
          Event.log ("Cloning the repository into " ++ d ++ "...") "status",
          Event.invoke (GitCmd.clone (jstr (mergedOptions cfg cli "remote")) d)] ++
          [Event.invoke (GitCmd.checkout (pathJoin projectDir d)
            (jstr (mergedOptions cfg cli "branch"))),
           Event.log ("Creating new branch: " ++
             jstr (mergedOptions cfg cli "branch") ++ "...") "status",
           Event.invoke (GitCmd.checkoutNew (pathJoin projectDir d)
             (jstr (mergedOptions cfg cli "branch")))])
      exact before_of_eq _ _ _
        [Event.mktempCall,
          Event.log ("Cloning the repository into " ++ d ++ "...") "status",
          Event.invoke (GitCmd.clone (jstr (mergedOptions cfg cli "remote")) d),
          Event.invoke (GitCmd.checkout (pathJoin projectDir d)
            (jstr (mergedOptions cfg cli "branch")))] []
        t (by rw [ht]; simp)
  · intro d hmk hcl hreach
    simp only [pipelineRun, hmk, hcl]
    rcases hreach with hco | hcb
    · simp only [hco]
      exact runRest_before_build (mergedOptions cfg cli) projectDir d _ env _
    · cases hco2 : env.checkout with
      | none => exact runRest_before_build (mergedOptions cfg cli) projectDir d _ env _
      | some e1 =>
        simp only [hcb]
        exact runRest_before_build (mergedOptions cfg cli) projectDir d _ env _
  · intro d s₁ t₁ rest hmk hcl hreach hb hp
    simp only [pipelineRun, hmk, hcl]
    rcases hreach with hco | hcb
    · simp only [hco]
      exact runRest_before_copy (mergedOptions cfg cli) projectDir d _ env _
        s₁ t₁ rest hb hp
    · cases hco2 : env.checkout with
      | none =>
        exact runRest_before_copy (mergedOptions cfg cli) projectDir d _ env _
          s₁ t₁ rest hb hp
      | some e1 =>
        simp only [hcb]
        exact runRest_before_copy (mergedOptions cfg cli) projectDir d _ env _
          s₁ t₁ rest hb hp
  · intro d hmk hcl hreach hb hcr
    simp only [pipelineRun, hmk, hcl]
    rcases hreach with hco | hcb
    · simp only [hco]
      exact runRest_before_clear_add (mergedOptions cfg cli) projectDir d _ env _ hb hcr
    · cases hco2 : env.checkout with
      | none => exact runRest_before_clear_add (mergedOptions cfg cli) projectDir d _ env _ hb hcr
      | some e1 =>
        simp only [hcb]
        exact runRest_before_clear_add (mergedOptions cfg cli) projectDir d _ env _ hb hcr
  · intro d hmk hcl hreach hb hcr ha
    simp only [pipelineRun, hmk, hcl]
    rcases hreach with hco | hcb
    · simp only [hco]
      exact runRest_before_commit (mergedOptions cfg cli) projectDir d _ env _ hb hcr ha
    · cases hco2 : env.checkout with
      | none => exact runRest_before_commit (mergedOptions cfg cli) projectDir d _ env _ hb hcr ha
      | some e1 =>
        simp only [hcb]
        exact runRest_before_commit (mergedOptions cfg cli) projectDir d _ env _ hb hcr ha
  · intro d hmk hcl hreach hb hcr ha hcm
    simp only [pipelineRun, hmk, hcl]
    rcases hreach with hco | hcb
    · simp only [hco]
      exact runRest_before_push (mergedOptions cfg cli) projectDir d _ env _ hb hcr ha hcm
    · cases hco2 : env.checkout with
      | none => exact runRest_before_push (mergedOptions cfg cli) projectDir d _ env _ hb hcr ha hcm
      | some e1 =>
        simp only [hcb]
        exact runRest_before_push (mergedOptions cfg cli) projectDir d _ env _ hb hcr ha hcm
  · intro d hmk hcl hreach hb hcr ha hcm hpu hdbg
    simp only [pipelineRun, hmk, hcl, hdbg]
    rcases hreach with hco | hcb
    · simp only [hco]
      exact runRest_before_cleanup (mergedOptions cfg cli) projectDir d env _ hb hcr ha hcm hpu
    · cases hco2 : env.checkout with
      | none => exact runRest_before_cleanup (mergedOptions cfg cli) projectDir d env _ hb hcr ha hcm hpu
      | some e1 =>
        simp only [hcb]
        exact runRest_before_cleanup (mergedOptions cfg cli) projectDir d env _ hb hcr ha hcm hpu

/-- Witness for the amended C8 theorem: in a concrete successful run the
checkout invocation precedes its status message; in a concrete
fallback run the creating-new-branch message precedes the
create-and-checkout invocation; and the workspace removal precedes the
success message. -/
theorem message_order_amended_w :
    before (aquiferGitRun cfgW cliW "proj" "deploy-git" envOkW).events
        (Event.invoke (GitCmd.checkout (pathJoin "proj" "aquifer-git-abc1234")
          (jstr (mergedOptions cfgW cliW "branch"))))
        (Event.log ("Checking out branch: " ++
          jstr (mergedOptions cfgW cliW "branch") ++ "...") "status") ∧
      before (aquiferGitRun cfgW cliW "proj" "deploy-git" envFallbackW).events
        (Event.log ("Creating new branch: " ++
          jstr (mergedOptions cfgW cliW "branch") ++ "...") "status")
        (Event.invoke (GitCmd.checkoutNew (pathJoin "proj" "aquifer-git-abc1234")
          (jstr (mergedOptions cfgW cliW "branch")))) ∧
      before (aquiferGitRun cfgW cliW "proj" "deploy-git" envOkW).events
        (Event.removeSync "aquifer-git-abc1234")
        (Event.log "The site has been successfully deployed!" "success") := by
  have h := message_order_amended cfgW cliW "proj" envOkW
    (by decide) (by decide) (by decide) (by decide)
  have hF := message_order_amended cfgW cliW "proj" envFallbackW
    (by decide) (by decide) (by decide) (by decide)
  refine ⟨?_, ?_, ?_⟩
  · exact h.2.1 "aquifer-git-abc1234" rfl rfl rfl
  · exact hF.2.2.1 "aquifer-git-abc1234" "no such branch" rfl rfl rfl
  · exact (h.2.2.2.2.2.2.2.2 "aquifer-git-abc1234" rfl rfl (Or.inl rfl) rfl
      (by decide) rfl rfl rfl (by decide)).2

/-- C8 (counterexample): in a concrete run the status message of the
checkout step is not emitted before the checkout command runs - the source
logs it only after the invocation succeeds - so the claim that every
step's status message precedes that step's execution is false. -/
theorem checkout_message_after_command :
    before (aquiferGitRun cfgW cliW "proj" "deploy-git" envBuildFailW).events
        (Event.invoke (GitCmd.checkout "proj/aquifer-git-abc1234" "gh-pages"))
        (Event.log "Checking out branch: gh-pages..." "status") ∧
      ¬ before (aquiferGitRun cfgW cliW "proj" "deploy-git" envBuildFailW).events
        (Event.log "Checking out branch: gh-pages..." "status")
        (Event.invoke (GitCmd.checkout "proj/aquifer-git-abc1234" "gh-pages")) := by
  constructor
  · decide
  · decide
